import Mathlib

/-!
# Formal verification of the formulang toolchain specification

Shallow embedding, in Lean 4, of the parts of the `bherbruck/formulang`
repository (a feed-formulation language compiler plus a two-phase simplex
LP solver, written in Rust) that the frozen claims C1..C10 are about.

Conventions used throughout:

* Rust `f64` is modelled as `ℚ` (exact arithmetic standing in for IEEE
  doubles; all numeric decisions of the source are order comparisons and
  field operations, which we mirror exactly over `ℚ`).
* `f64::INFINITY` / `f64::NEG_INFINITY`, which appear only as stored
  sentinel values (never in arithmetic), are modelled by the `FVal` type.
* Rust `Vec` is `List`; out-of-range writes are modelled as no-ops and
  out-of-range reads default to `0` (the source only indexes in range for
  well-formed inputs; where a claim needs this we add an explicit
  well-formedness hypothesis).
* Rust `HashMap`/`HashSet` contents are modelled as association lists in
  first-insertion order.  The one place where the *iteration order* of a
  hash map is observable (`analyze_conflicts` in `simplex.rs`) takes the
  order as an explicit argument, because in Rust that order depends on the
  per-process random hash seed.
* Loops (`for _ in 0..max_iterations`, recursive descent, constraint
  inheritance) are modelled with explicit fuel, structurally recursive so
  that every definition evaluates inside the kernel.

Every definition is translated from the Rust sources
(`crates/formulang-solver/src/{problem,solution,simplex}.rs`,
`crates/formulang-lang/src/{lexer,parser,compiler}.rs`); doc comments name
the Rust item a definition embeds.
-/

set_option maxRecDepth 8000

namespace Formulang

/-! ## Small list helpers (semantics of `Vec` indexing / `HashMap`) -/

/-- `v[i] = x` on a `Vec`, as a no-op when out of range. -/
def setAt {α : Type} : List α → ℕ → α → List α
  | [], _, _ => []
  | _ :: xs, 0, v => v :: xs
  | x :: xs, n + 1, v => x :: setAt xs n v

/-- `HashMap::get`: first binding of the key (keys are unique). -/
def lookupAL {α : Type} : List (String × α) → String → Option α
  | [], _ => none
  | (k', v) :: rest, k => if k' = k then some v else lookupAL rest k

/-- `HashMap::contains_key`. -/
def containsAL {α : Type} (m : List (String × α)) (k : String) : Bool :=
  (lookupAL m k).isSome

/-- `HashMap::insert`: replace an existing binding or append a new one. -/
def insertAL {α : Type} : List (String × α) → String → α → List (String × α)
  | [], k, v => [(k, v)]
  | (k', v') :: rest, k, v =>
    if k' = k then (k, v) :: rest else (k', v') :: insertAL rest k v

/-- `f64::abs`. -/
def ratAbs (q : ℚ) : ℚ := if q < 0 then -q else q

/-! ## Solver data model (`problem.rs`, `solution.rs`) -/

/-- `ConstraintOp` in `problem.rs`. -/
inductive ConstraintOp : Type
  | le
  | ge
  | eq
deriving DecidableEq

/-- `Constraint` in `problem.rs`. -/
structure Constraint : Type where
  name : String
  coefficients : List ℚ
  op : ConstraintOp
  rhs : ℚ
deriving DecidableEq

/-- `Objective` in `problem.rs`. -/
structure Objective : Type where
  coefficients : List ℚ
  minimize : Bool
deriving DecidableEq

/-- `LpProblem` in `problem.rs`. -/
structure LpProblem : Type where
  vars : List String
  objective : Objective
  constraints : List Constraint
deriving DecidableEq

/-- `LpProblem::new`. -/
def LpProblem.new (vars : List String) : LpProblem :=
  { vars := vars
    objective := { coefficients := List.replicate vars.length 0, minimize := true }
    constraints := [] }

/-- `LpProblem::set_objective`. -/
def LpProblem.setObjective (p : LpProblem) (coefficients : List ℚ) (minimize : Bool) :
    LpProblem :=
  { p with objective := { coefficients := coefficients, minimize := minimize } }

/-- `LpProblem::add_constraint`. -/
def LpProblem.addConstraint (p : LpProblem) (name : String) (coefficients : List ℚ)
    (op : ConstraintOp) (rhs : ℚ) : LpProblem :=
  { p with constraints := p.constraints ++
      [{ name := name, coefficients := coefficients, op := op, rhs := rhs }] }

/-- `LpProblem::num_variables`. -/
def LpProblem.numVariables (p : LpProblem) : ℕ := p.vars.length

/-- `LpProblem::num_constraints`. -/
def LpProblem.numConstraints (p : LpProblem) : ℕ := p.constraints.length

/-- An `f64` that may hold the sentinel values `f64::INFINITY` or
`f64::NEG_INFINITY` (used only as stored constants in `solution.rs`). -/
inductive FVal : Type
  | fin (q : ℚ)
  | pinf
  | ninf
deriving DecidableEq

/-- `SolutionStatus` in `solution.rs`. -/
inductive SolutionStatus : Type
  | optimal
  | infeasible
  | unbounded
  | error
deriving DecidableEq

/-- The interpretation string attached to a shadow price (`analyze` in
`simplex.rs` formats it with `format!`); modelled structurally, keeping
the constructor and its numeric argument instead of the rendered text. -/
inductive ShadowInterp : Type
  | nonBinding
  | decreaseCost (q : ℚ)
  | increaseCost (q : ℚ)
deriving DecidableEq

/-- `ShadowPrice` in `solution.rs`. -/
structure ShadowPrice : Type where
  constraint : String
  value : ℚ
  interpretation : ShadowInterp
deriving DecidableEq

/-- `ReducedCost` in `solution.rs`. -/
structure ReducedCost : Type where
  variable_ : String
  value : ℚ
  reducedCost : ℚ
  isBasic : Bool
deriving DecidableEq

/-- `SensitivityRange` in `solution.rs` (the bounds may be infinite). -/
structure SensitivityRange : Type where
  name : String
  current : ℚ
  lowerBound : FVal
  upperBound : FVal
deriving DecidableEq

/-- The description string of a `ConstraintViolation` (`find_violations` and
`analyze_conflicts` format it with `format!`); modelled structurally. -/
inductive VioDesc : Type
  | exceedsMax (name : String) (rhs amt : ℚ)
  | belowMin (name : String) (rhs amt : ℚ)
  | requiresExactly (name : String) (rhs lhs : ℚ)
  | conflict (minName : String) (minVal : ℚ) (maxName : String) (maxVal : ℚ)
deriving DecidableEq

/-- `ConstraintViolation` in `solution.rs`. -/
structure ConstraintViolation : Type where
  constraint : String
  required : ℚ
  actual : ℚ
  violationAmount : ℚ
  description : VioDesc
deriving DecidableEq

/-- `Analysis` in `solution.rs`. -/
structure Analysis : Type where
  shadowPrices : List ShadowPrice
  reducedCosts : List ReducedCost
  bindingConstraints : List String
  objectiveSensitivity : List SensitivityRange
  rhsSensitivity : List SensitivityRange
deriving DecidableEq

/-- `Analysis::empty`. -/
def Analysis.empty : Analysis :=
  { shadowPrices := [], reducedCosts := [], bindingConstraints := []
    objectiveSensitivity := [], rhsSensitivity := [] }

/-- `Solution` in `solution.rs`. -/
structure Solution : Type where
  status : SolutionStatus
  values : List ℚ
  objectiveValue : FVal
  analysis : Analysis
  violations : List ConstraintViolation
deriving DecidableEq

/-- `Solution::infeasible`. -/
def Solution.infeasible : Solution :=
  { status := .infeasible, values := [], objectiveValue := .pinf
    analysis := Analysis.empty, violations := [] }

/-- `Solution::infeasible_with_violations`. -/
def Solution.infeasibleWithViolations (violations : List ConstraintViolation) : Solution :=
  { status := .infeasible, values := [], objectiveValue := .pinf
    analysis := Analysis.empty, violations := violations }

/-- `Solution::infeasible_with_relaxed`. -/
def Solution.infeasibleWithRelaxed (values : List ℚ) (objectiveValue : FVal)
    (violations : List ConstraintViolation) : Solution :=
  { status := .infeasible, values := values, objectiveValue := objectiveValue
    analysis := Analysis.empty, violations := violations }

/-- `Solution::unbounded`. -/
def Solution.unbounded : Solution :=
  { status := .unbounded, values := [], objectiveValue := .ninf
    analysis := Analysis.empty, violations := [] }

/-! ## The simplex solver (`simplex.rs`) -/

/-- The `Solver` struct in `simplex.rs`. -/
structure Solver : Type where
  maxIterations : ℕ
  tolerance : ℚ

/-- `Solver::default` / `Solver::new`: 10000 iterations, `1e-9` tolerance. -/
def Solver.new : Solver :=
  { maxIterations := 10000, tolerance := 1 / 1000000000 }

/-- The `Tableau` struct in `simplex.rs`. -/
structure Tableau : Type where
  data : List (List ℚ)
  basicVars : List ℕ
  nVars : ℕ
  nSlack : ℕ
  nArtificial : ℕ
  hasArtificial : Bool
  constraintNames : List String
  variableNames : List String

/-- `SimplexResult` in `simplex.rs`. -/
inductive SimplexResult : Type
  | optimal
  | unbounded
  | infeasible
deriving DecidableEq

/-- Writing the constraint coefficients into the first columns of a row
(`for (j, &coef) in c.coefficients.iter().enumerate()` in `build_tableau`). -/
def setCoeffs : List ℚ → List ℚ → ℕ → List ℚ
  | row, [], _ => row
  | row, c :: cs, j => setCoeffs (setAt row j c) cs (j + 1)

/-- One constraint row of `build_tableau`: coefficient entries, the
non-negativity flip of the RHS, and the slack / surplus / artificial
column, together with the row's initial basic variable and the updated
slack / artificial column counters. -/
def buildRow (nVars totalCols : ℕ) (c : Constraint) (slackIdx artIdx : ℕ) :
    List ℚ × ℕ × ℕ × ℕ :=
  let row1 := setCoeffs (List.replicate totalCols (0 : ℚ)) c.coefficients 0
  let flip := c.rhs < 0
  let rhs := if flip then -c.rhs else c.rhs
  let row2 := if flip then row1.mapIdx (fun j x => if j < nVars then -x else x) else row1
  let row3 := setAt row2 (totalCols - 1) rhs
  match c.op with
  | .le =>
    let sign : ℚ := if flip then -1 else 1
    (setAt row3 slackIdx sign, slackIdx, slackIdx + 1, artIdx)
  | .ge =>
    let sign : ℚ := if flip then 1 else -1
    (setAt (setAt row3 slackIdx sign) artIdx 1, artIdx, slackIdx + 1, artIdx + 1)
  | .eq =>
    (setAt row3 artIdx 1, artIdx, slackIdx, artIdx + 1)

/-- The constraint-filling loop of `build_tableau`. -/
def buildRows (nVars totalCols : ℕ) : List Constraint → ℕ → ℕ →
    List (List ℚ) × List ℕ
  | [], _, _ => ([], [])
  | c :: rest, slackIdx, artIdx =>
    let r := buildRow nVars totalCols c slackIdx artIdx
    let (rows, basics) := buildRows nVars totalCols rest r.2.2.1 r.2.2.2
    (r.1 :: rows, r.2.1 :: basics)

/-- `Solver::build_tableau`.  The Rust function returns
`Result<Tableau, ()>` but has no error path; the `Except` wrapper keeps
the calling convention. -/
def buildTableau (p : LpProblem) : Except Unit Tableau :=
  let nVars := p.numVariables
  let counts := p.constraints.foldl
    (fun (acc : ℕ × ℕ) c =>
      match c.op with
      | .le => (acc.1 + 1, acc.2)
      | .ge => (acc.1 + 1, acc.2 + 1)
      | .eq => (acc.1, acc.2 + 1)) (0, 0)
  let nSlack := counts.1
  let nArtificial := counts.2
  let totalCols := nVars + nSlack + nArtificial + 1
  let (rows, basics) := buildRows nVars totalCols p.constraints nVars (nVars + nSlack)
  let objRow := setCoeffsSigned (List.replicate totalCols (0 : ℚ))
    p.objective.coefficients p.objective.minimize 0
  .ok { data := rows ++ [objRow]
        basicVars := basics
        nVars := nVars
        nSlack := nSlack
        nArtificial := nArtificial
        hasArtificial := decide (nArtificial > 0)
        constraintNames := p.constraints.map (·.name)
        variableNames := p.vars }
where
  /-- The objective row of `build_tableau`: `-c` for minimisation, `+c`
  for maximisation. -/
  setCoeffsSigned : List ℚ → List ℚ → Bool → ℕ → List ℚ
  | row, [], _, _ => row
  | row, c :: cs, minimize, j =>
    setCoeffsSigned (setAt row j (if minimize then -c else c)) cs minimize (j + 1)

/-- `Solver::find_pivot_column_excluding`: the most positive reduced cost
above the tolerance among the first columns, ties to the smallest index. -/
def findPivotColumnExcluding (s : Solver) (t : Tableau) (excludeFrom : ℕ) : Option ℕ :=
  let objRow := t.data.length - 1
  let nCols := if excludeFrom > 0 then excludeFrom else (t.data.headD []).length - 1
  let r := (List.range nCols).foldl
    (fun (acc : ℚ × Option ℕ) j =>
      let v := (t.data.getD objRow []).getD j 0
      if v > acc.1 then (v, some j) else acc)
    (s.tolerance, none)
  r.2

/-- `Solver::find_pivot_column`. -/
def findPivotColumn (s : Solver) (t : Tableau) : Option ℕ :=
  findPivotColumnExcluding s t 0

/-- `Solver::find_pivot_row`: minimum-ratio test (`none` models the
initial `f64::INFINITY` minimum), ties to the smallest row index. -/
def findPivotRow (s : Solver) (t : Tableau) (col : ℕ) : Option ℕ :=
  let nConstraints := t.data.length - 1
  let rhsCol := (t.data.headD []).length - 1
  let r := (List.range nConstraints).foldl
    (fun (acc : Option ℚ × Option ℕ) i =>
      let val := (t.data.getD i []).getD col 0
      if val > s.tolerance then
        let ratio := (t.data.getD i []).getD rhsCol 0 / val
        if ratio ≥ 0 then
          match acc.1 with
          | none => (some ratio, some i)
          | some m => if ratio < m then (some ratio, some i) else acc
        else acc
      else acc)
    (none, none)
  r.2

/-- `Solver::pivot`: scale the pivot row, then eliminate the pivot column
from every other row. -/
def pivot (t : Tableau) (row col : ℕ) : Tableau :=
  let pivotVal := (t.data.getD row []).getD col 0
  let scaled := (t.data.getD row []).map (· / pivotVal)
  { t with
    basicVars := setAt t.basicVars row col
    data := t.data.mapIdx (fun i r =>
      if i = row then scaled
      else
        let factor := r.getD col 0
        r.zipWith (fun a b => a - factor * b) scaled) }

/-- The pivot loop of `Solver::phase1` (`for _ in 0..self.max_iterations`);
the second component is `false` exactly when the loop hit the
`return false` for an unbounded phase-1 direction. -/
def phase1Go (s : Solver) : ℕ → Tableau → Tableau × Bool
  | 0, t => (t, true)
  | fuel + 1, t =>
    match findPivotColumn s t with
    | none => (t, true)
    | some col =>
      match findPivotRow s t col with
      | none => (t, false)
      | some row => phase1Go s fuel (pivot t row col)

/-- `Solver::phase1`: install the auxiliary objective, canonicalise it
against the artificial basis, pivot, test the artificials, and restore
the original objective. -/
def phase1 (s : Solver) (t : Tableau) : Bool × Tableau :=
  let nConstraints := t.data.length - 1
  let nCols := (t.data.headD []).length
  let artStart := t.nVars + t.nSlack
  let origObj := t.data.getD nConstraints []
  let p1Row := (List.range nCols).map
    (fun j => if artStart ≤ j ∧ j < artStart + t.nArtificial then (-1 : ℚ) else 0)
  let t1 : Tableau := { t with data := setAt t.data nConstraints p1Row }
  let canon := (List.range nConstraints).foldl
    (fun objRow i =>
      if t1.basicVars.getD i 0 ≥ artStart then
        objRow.zipWith (fun a b => a + b) (t1.data.getD i [])
      else objRow)
    (t1.data.getD nConstraints [])
  let t2 : Tableau := { t1 with data := setAt t1.data nConstraints canon }
  let r := phase1Go s s.maxIterations t2
  let t3 := r.1
  if r.2 = false then (false, t3)
  else
    let rhsCol := nCols - 1
    let infeasible := (List.range nConstraints).any
      (fun i =>
        if t3.basicVars.getD i 0 ≥ artStart ∧
            ratAbs ((t3.data.getD i []).getD rhsCol 0) > s.tolerance
        then true else false)
    if infeasible then (false, t3)
    else
      let t4 : Tableau := { t3 with data := setAt t3.data nConstraints origObj }
      let restored := (List.range nConstraints).foldl
        (fun objRow i =>
          let basic := t4.basicVars.getD i 0
          if ratAbs (objRow.getD basic 0) > s.tolerance then
            let ratio := objRow.getD basic 0
            objRow.zipWith (fun a b => a - ratio * b) (t4.data.getD i [])
          else objRow)
        (t4.data.getD nConstraints [])
      (true, { t4 with data := setAt t4.data nConstraints restored })

/-- The pivot loop of `Solver::phase2`; running out of fuel models
reaching the iteration cap, which the source treats as optimal. -/
def phase2Go (s : Solver) (excludeFrom : ℕ) : ℕ → Tableau → Tableau × SimplexResult
  | 0, t => (t, .optimal)
  | fuel + 1, t =>
    match findPivotColumnExcluding s t excludeFrom with
    | none => (t, .optimal)
    | some col =>
      match findPivotRow s t col with
      | none => (t, .unbounded)
      | some row => phase2Go s excludeFrom fuel (pivot t row col)

/-- `Solver::phase2`: pivot with the artificial columns excluded. -/
def phase2 (s : Solver) (t : Tableau) : Tableau × SimplexResult :=
  phase2Go s (t.nVars + t.nSlack) s.maxIterations t

/-- `Solver::analyze`: shadow prices, reduced costs, binding constraints
and placeholder sensitivity ranges. -/
def analyze (s : Solver) (t : Tableau) (p : LpProblem) (values : List ℚ) : Analysis :=
  let nVars := p.numVariables
  let nConstraints := p.numConstraints
  let nCols := (t.data.headD []).length
  let objRow := t.data.getD nConstraints []
  let shadowPrices := (p.constraints.enum.filterMap
    (fun ci =>
      let slackCol := nVars + ci.1
      if slackCol < nCols - 1 then
        let value := -(objRow.getD slackCol 0)
        let interpretation :=
          if ratAbs value < s.tolerance then ShadowInterp.nonBinding
          else if value > 0 then ShadowInterp.decreaseCost value
          else ShadowInterp.increaseCost (-value)
        some { constraint := ci.2.name, value := value,
               interpretation := interpretation }
      else none) : List ShadowPrice)
  let reducedCosts := p.vars.enum.map
    (fun vj =>
      let isBasic := t.basicVars.contains vj.1
      let rc := if isBasic then 0 else objRow.getD vj.1 0
      { variable_ := vj.2, value := values.getD vj.1 0,
        reducedCost := rc, isBasic := isBasic : ReducedCost })
  let bindingConstraints := (shadowPrices.filter
    (fun sp => ratAbs sp.value > s.tolerance)).map (·.constraint)
  let objectiveSensitivity := p.vars.enum.map
    (fun vj =>
      { name := vj.2, current := p.objective.coefficients.getD vj.1 0,
        lowerBound := .ninf, upperBound := .pinf : SensitivityRange })
  let rhsSensitivity := p.constraints.map
    (fun c =>
      { name := c.name, current := c.rhs,
        lowerBound := .fin 0, upperBound := .pinf : SensitivityRange })
  { shadowPrices := shadowPrices, reducedCosts := reducedCosts
    bindingConstraints := bindingConstraints
    objectiveSensitivity := objectiveSensitivity
    rhsSensitivity := rhsSensitivity }

/-- `Solver::extract_solution`: basic variables take their row's RHS,
non-basic variables are `0`; the objective value uses the original
coefficients. -/
def extractSolution (s : Solver) (t : Tableau) (p : LpProblem) : Solution :=
  let nVars := p.numVariables
  let nConstraints := p.numConstraints
  let nCols := (t.data.headD []).length
  let rhsCol := nCols - 1
  let values := (List.range nConstraints).foldl
    (fun vals i =>
      let basic := t.basicVars.getD i 0
      if basic < nVars then setAt vals basic ((t.data.getD i []).getD rhsCol 0)
      else vals)
    (List.replicate nVars (0 : ℚ))
  let objectiveValue := (List.range values.length).foldl
    (fun acc j => acc + p.objective.coefficients.getD j 0 * values.getD j 0) 0
  { status := .optimal, values := values, objectiveValue := .fin objectiveValue
    analysis := analyze s t p values, violations := [] }

/-- `Solver::find_violations` before sorting: the per-constraint check of
a candidate solution against the original problem. -/
def violationChecks (s : Solver) (p : LpProblem) (values : List ℚ) :
    List ConstraintViolation :=
  p.constraints.filterMap
    (fun c =>
      let lhs := ((c.coefficients.zipWith (fun a b => a * b) values).foldl
        (fun a b => a + b) 0)
      match c.op with
      | .le =>
        if lhs > c.rhs + s.tolerance then
          some { constraint := c.name, required := c.rhs, actual := lhs,
                 violationAmount := lhs - c.rhs,
                 description := .exceedsMax c.name c.rhs (lhs - c.rhs) }
        else none
      | .ge =>
        if lhs < c.rhs - s.tolerance then
          some { constraint := c.name, required := c.rhs, actual := lhs,
                 violationAmount := c.rhs - lhs,
                 description := .belowMin c.name c.rhs (c.rhs - lhs) }
        else none
      | .eq =>
        if ratAbs (lhs - c.rhs) > s.tolerance then
          some { constraint := c.name, required := c.rhs, actual := lhs,
                 violationAmount := ratAbs (lhs - c.rhs),
                 description := .requiresExactly c.name c.rhs lhs }
        else none)

/-- Stable insertion into a list sorted by descending violation amount
(the behaviour of `violations.sort_by(|a, b| b...partial_cmp(&a...))`). -/
def insertViolation (v : ConstraintViolation) : List ConstraintViolation →
    List ConstraintViolation
  | [] => [v]
  | w :: ws =>
    if w.violationAmount ≥ v.violationAmount then w :: insertViolation v ws
    else v :: w :: ws

/-- `Solver::find_violations`. -/
def findViolations (s : Solver) (p : LpProblem) (values : List ℚ) :
    List ConstraintViolation :=
  (violationChecks s p values).foldl (fun acc v => insertViolation v acc) []

/-- The sign-pattern key of `analyze_conflicts`. -/
def signKey (s : Solver) (c : Constraint) : List ℤ :=
  c.coefficients.map
    (fun x => if ratAbs x < s.tolerance then (0 : ℤ) else if x > 0 then 1 else -1)

/-- Appending a constraint to its sign-pattern group
(`constraint_groups.entry(key).or_default().push(c)`). -/
def insertGroup (key : List ℤ) (c : Constraint) :
    List (List ℤ × List Constraint) → List (List ℤ × List Constraint)
  | [] => [(key, [c])]
  | (k, cs) :: gs =>
    if k = key then (k, cs ++ [c]) :: gs else (k, cs) :: insertGroup key c gs

/-- Grouping constraints by sign pattern, scanning left to right; group
keys are kept in first-insertion order, members in push order. -/
def groupBySign (s : Solver) (cs : List Constraint) :
    List (List ℤ × List Constraint) :=
  cs.foldl (fun gs c => insertGroup (signKey s c) c gs) []

/-- The per-group min/max bound scan of `analyze_conflicts`. -/
def groupConflict (s : Solver) (cs : List Constraint) : List ConstraintViolation :=
  let r := cs.foldl
    (fun (acc : Option (ℚ × String) × Option (ℚ × String)) c =>
      match c.op with
      | .ge =>
        match acc.1 with
        | none => ((c.rhs, c.name), acc.2)
        | some mb => (if c.rhs > mb.1 then some (c.rhs, c.name) else acc.1, acc.2)
      | .le =>
        match acc.2 with
        | none => (acc.1, some (c.rhs, c.name))
        | some mb => (acc.1, if c.rhs < mb.1 then some (c.rhs, c.name) else acc.2)
      | .eq => (some (c.rhs, c.name), some (c.rhs, c.name)))
    (none, none)
  match r.1, r.2 with
  | some mn, some mx =>
    if mn.1 > mx.1 + s.tolerance then
      [{ constraint := mn.2 ++ " vs " ++ mx.2, required := mn.1, actual := mx.1,
         violationAmount := mn.1 - mx.1,
         description := .conflict mn.2 mn.1 mx.2 mx.1 }]
    else []
  | _, _ => []

/-- `Solver::analyze_conflicts`.  `hashOrder` is the iteration order of
the Rust `HashMap` over the sign-pattern groups, which in Rust depends on
the process-local random hash seed; it lists the group keys in visit
order. -/
def analyzeConflicts (s : Solver) (hashOrder : List (List ℤ)) (p : LpProblem) : Solution :=
  let groups := groupBySign s p.constraints
  let violations := hashOrder.foldl
    (fun acc key =>
      match groups.find? (fun g => g.1 == key) with
      | some g => acc ++ groupConflict s g.2
      | none => acc)
    []
  Solution.infeasibleWithViolations violations

/-- `Solver::solve_relaxed`: solve without infeasibility recovery. -/
def solveRelaxed (s : Solver) (p : LpProblem) : Solution :=
  match buildTableau p with
  | .error _ => Solution.infeasible
  | .ok t =>
    let r := if t.hasArtificial then phase1 s t else (true, t)
    if r.1 = false then Solution.infeasible
    else
      match phase2 s r.2 with
      | (t2, .optimal) =>
        let sol := extractSolution s t2 p
        { sol with violations := [] }
      | (_, .unbounded) => Solution.unbounded
      | (_, .infeasible) => Solution.infeasible

/-- `Solver::solve_with_relaxation`: keep only the `≤` and `=`
constraints, solve, and report the violated constraints of the original
problem; fall back to `analyze_conflicts` if even that fails. -/
def solveWithRelaxation (s : Solver) (hashOrder : List (List ℤ)) (p : LpProblem) :
    Solution :=
  let relaxed : LpProblem :=
    { vars := p.vars
      objective := { coefficients := p.objective.coefficients,
                     minimize := p.objective.minimize }
      constraints := p.constraints.filter
        (fun c => match c.op with | .le => true | .eq => true | .ge => false) }
  let relaxedSolution := solveRelaxed s relaxed
  if relaxedSolution.status ≠ .optimal then analyzeConflicts s hashOrder p
  else
    let violations := findViolations s p relaxedSolution.values
    if violations.isEmpty then { relaxedSolution with violations := [] }
    else
      Solution.infeasibleWithRelaxed relaxedSolution.values
        relaxedSolution.objectiveValue violations

/-- `Solver::solve`: the two-phase simplex method with infeasibility
recovery.  `hashOrder` parameterises the hash-map iteration order used by
the conflict-analysis fallback (see `analyzeConflicts`). -/
def solve (s : Solver) (hashOrder : List (List ℤ)) (p : LpProblem) : Solution :=
  match buildTableau p with
  | .error _ => solveWithRelaxation s hashOrder p
  | .ok t =>
    let r := if t.hasArtificial then phase1 s t else (true, t)
    if r.1 = false then solveWithRelaxation s hashOrder p
    else
      match phase2 s r.2 with
      | (t2, .optimal) =>
        let sol := extractSolution s t2 p
        { sol with violations := [] }
      | (_, .unbounded) => Solution.unbounded
      | (_, .infeasible) => solveWithRelaxation s hashOrder p

/-! ## The lexer (`lexer.rs`)

The source buffer is a `List Char`; byte positions advance by the UTF-8
size of each character, as in the Rust lexer.  Each token records its
kind, byte span and text (the consumed source slice).  In addition to the
token, `nextTokenG` returns the run of whitespace characters that
`skip_whitespace` discarded before the token started — in Rust those
characters are simply dropped; keeping them lets us state exactly which
input bytes end up outside every token span.  Unicode classes: Rust's
`char::is_alphabetic` / `is_alphanumeric` are modelled by the ASCII
classifiers (no claim depends on non-ASCII identifier characters). -/

/-- `Span` in `lexer.rs`: a half-open byte range. -/
structure Span : Type where
  start : ℕ
  stop : ℕ
deriving DecidableEq

/-- `TokenKind` in `lexer.rs`. -/
inductive TokenKind : Type
  | nutrient
  | ingredient
  | formula
  | importKw
  | template
  | min
  | max
  | asKw
  | ident
  | number
  | string
  | plus
  | minus
  | star
  | slash
  | percent
  | dot
  | colon
  | comma
  | lbrace
  | rbrace
  | lbracket
  | rbracket
  | lparen
  | rparen
  | newline
  | comment
  | eof
  | error
deriving DecidableEq

/-- `Token` in `lexer.rs`. -/
structure Token : Type where
  kind : TokenKind
  span : Span
  text : String
deriving DecidableEq

/-- The `'{'` character (written via its code point). -/
def lbraceChar : Char := Char.ofNat 123

/-- The `'}'` character (written via its code point). -/
def rbraceChar : Char := Char.ofNat 125

/-- `char::len_utf8`. -/
def csize (c : Char) : ℕ :=
  if c.toNat < 128 then 1
  else if c.toNat < 2048 then 2
  else if c.toNat < 65536 then 3
  else 4

/-- Total UTF-8 byte length of a character run. -/
def utf8Len (l : List Char) : ℕ := (l.map csize).sum

/-- The lexer cursor: remaining characters and current byte position. -/
structure LexState : Type where
  rem : List Char
  pos : ℕ

/-- The whitespace test of `skip_whitespace` (space, tab, CR). -/
def isWsChar (c : Char) : Bool := c = ' ' || c = '\t' || c = '\r'

/-- `Lexer::skip_whitespace`, returning the skipped characters. -/
def skipWs (st : LexState) : List Char × LexState :=
  let ws := st.rem.takeWhile isWsChar
  (ws, ⟨st.rem.dropWhile isWsChar, st.pos + utf8Len ws⟩)

/-- A token that consumed exactly the given characters starting at `st`. -/
def mkTok (kind : TokenKind) (consumed : List Char) (st : LexState) :
    Token × LexState :=
  ({ kind := kind, span := ⟨st.pos, st.pos + utf8Len consumed⟩, text := ⟨consumed⟩ },
   ⟨st.rem.drop consumed.length, st.pos + utf8Len consumed⟩)

/-- The digit test (`char::is_ascii_digit`). -/
def isDigitChar (c : Char) : Bool := c.isDigit

/-- The identifier-character test of `read_ident`
(`is_alphanumeric() || c == '_'`, ASCII-modelled). -/
def isIdentChar (c : Char) : Bool := c.isAlphanum || c = '_'

/-- The characters of a number literal starting at the head of `l`
(`read_number`): optional `-`, digits, and a fractional part only when a
`.` is directly followed by a digit. -/
def numberChars (l : List Char) : List Char :=
  let (neg, r1) :=
    match l with
    | '-' :: rest => (['-'], rest)
    | _ => (([] : List Char), l)
  let ds := r1.takeWhile isDigitChar
  let r2 := r1.dropWhile isDigitChar
  let fr :=
    match r2 with
    | '.' :: d :: _ =>
      if isDigitChar d then '.' :: (r2.drop 1).takeWhile isDigitChar
      else []
    | _ => []
  neg ++ ds ++ fr

/-- The characters of a string literal starting after the opening quote
(`read_string`): up to and including the closing `"`, or up to (not
including) a newline, or to the end of input. -/
def stringBody : List Char → List Char
  | [] => []
  | c :: rest =>
    if c = '"' then ['"']
    else if c = '\n' then []
    else c :: stringBody rest

/-- The characters of a `/* ... */` block comment after the `/*`
(`skip_block_comment`); tolerates an unterminated comment at EOF. -/
def blockBody : List Char → List Char
  | [] => []
  | '*' :: rest =>
    match rest with
    | '/' :: _ => ['*', '/']
    | _ => '*' :: blockBody rest
  | c :: rest => c :: blockBody rest

/-- `Lexer::next_token`, also returning the whitespace skipped before the
token (dropped by the Rust lexer). -/
def nextTokenG (st : LexState) : List Char × Token × LexState :=
  let (ws, st1) := skipWs st
  match st1.rem with
  | [] => (ws, ({ kind := .eof, span := ⟨st1.pos, st1.pos⟩, text := "" }, st1))
  | c :: rest =>
    let tok :=
      if c = '\n' then mkTok .newline [c] st1
      else if c = '/' then
        match rest with
        | '/' :: _ => mkTok .comment ('/' :: '/' :: (rest.drop 1).takeWhile (· ≠ '\n')) st1
        | '*' :: _ => mkTok .comment ('/' :: '*' :: blockBody (rest.drop 1)) st1
        | _ => mkTok .slash [c] st1
      else if c = '"' then mkTok .string ('"' :: stringBody rest) st1
      else if c = '+' then mkTok .plus [c] st1
      else if c = '-' then
        match rest with
        | d :: _ => if isDigitChar d then mkTok .number (numberChars st1.rem) st1
                    else mkTok .minus [c] st1
        | [] => mkTok .minus [c] st1
      else if c = '*' then mkTok .star [c] st1
      else if c = '%' then mkTok .percent [c] st1
      else if c = '.' then mkTok .dot [c] st1
      else if c = ':' then mkTok .colon [c] st1
      else if c = ',' then mkTok .comma [c] st1
      else if c = lbraceChar then mkTok .lbrace [c] st1
      else if c = rbraceChar then mkTok .rbrace [c] st1
      else if c = '[' then mkTok .lbracket [c] st1
      else if c = ']' then mkTok .rbracket [c] st1
      else if c = '(' then mkTok .lparen [c] st1
      else if c = ')' then mkTok .rparen [c] st1
      else if isDigitChar c then mkTok .number (numberChars st1.rem) st1
      else if c.isAlpha || c = '_' then
        let chars := st1.rem.takeWhile isIdentChar
        let t := mkTok .ident chars st1
        (({ t.1 with kind := keywordKind t.1.text }, t.2))
      else mkTok .error [c] st1
    (ws, tok)
where
  /-- The keyword table of `read_ident`. -/
  keywordKind (text : String) : TokenKind :=
    if text = "nutrient" then .nutrient
    else if text = "ingredient" then .ingredient
    else if text = "formula" then .formula
    else if text = "import" then .importKw
    else if text = "template" then .template
    else if text = "min" then .min
    else if text = "max" then .max
    else if text = "as" then .asKw
    else .ident

/-- The `Lexer::tokenize` loop, paired with the whitespace gap before
each token; stops after emitting the EOF token. -/
def tokenizeGo : ℕ → LexState → List (List Char × Token)
  | 0, _ => []
  | fuel + 1, st =>
    let r := nextTokenG st
    if r.2.1.kind = .eof then [(r.1, r.2.1)]
    else (r.1, r.2.1) :: tokenizeGo fuel r.2.2

/-- `Lexer::tokenize` together with the skipped whitespace gaps. -/
def tokenizeG (src : List Char) : List (List Char × Token) :=
  tokenizeGo (src.length + 1) ⟨src, 0⟩

/-- `Lexer::tokenize`. -/
def tokenize (src : List Char) : List Token :=
  (tokenizeG src).map (·.2)

/-- Whether byte offset `i` lies inside some token's span. -/
def spanCovers (ts : List Token) (i : ℕ) : Bool :=
  ts.any (fun t => t.span.start ≤ i && i < t.span.stop)

/-! ## The AST (`ast.rs`, shapes as constructed by `parser.rs`)

The field set follows the constructors used by `parser.rs` and
`compiler.rs` (template flags, optional nutrient values, constraint
aliases, expression-valued properties), which is also the data model of
spec.md §3. -/

/-- `BinaryOp` in `ast.rs`. -/
inductive BinaryOp : Type
  | add
  | sub
  | mul
  | div
deriving DecidableEq

/-- The `Display` rendering of `BinaryOp` (`+ - * /`). -/
def BinaryOp.display : BinaryOp → String
  | .add => "+"
  | .sub => "-"
  | .mul => "*"
  | .div => "/"

/-- The derived `Debug` rendering of `BinaryOp` (`Add Sub Mul Div`). -/
def BinaryOp.debug : BinaryOp → String
  | .add => "Add"
  | .sub => "Sub"
  | .mul => "Mul"
  | .div => "Div"

/-- `ReferencePart` in `ast.rs`. -/
inductive ReferencePart : Type
  | ident (name : String)
  | selection (names : List String)
  | min
  | max
deriving DecidableEq

/-- `Reference` in `ast.rs`. -/
structure Reference : Type where
  span : Span
  parts : List ReferencePart
deriving DecidableEq

/-- `Expr` in `ast.rs` (numbers carry no span). -/
inductive Expr : Type
  | num (value : ℚ)
  | reference (r : Reference)
  | binaryOp (left : Expr) (op : BinaryOp) (right : Expr)
  | paren (inner : Expr)
deriving DecidableEq

/-- `PropertyValue` in `ast.rs` (with the `Expr` variant used by
`parse_property`). -/
inductive PropertyValue : Type
  | string (s : String)
  | number (n : ℚ)
  | ident (s : String)
  | expr (e : Expr)
deriving DecidableEq

/-- `Property` in `ast.rs`. -/
structure Property : Type where
  span : Span
  name : String
  value : PropertyValue
deriving DecidableEq

/-- `BoundValue` in `ast.rs`. -/
structure BoundValue : Type where
  value : ℚ
  isPercent : Bool
deriving DecidableEq

/-- `Bounds` in `ast.rs`. -/
structure Bounds : Type where
  min : Option BoundValue
  max : Option BoundValue
deriving DecidableEq

/-- `NutrientConstraint` in `ast.rs` (with the alias field set by
`parse_nutrient_constraint`). -/
structure NutrientConstraint : Type where
  span : Span
  expr : Expr
  bounds : Bounds
  alias_ : Option String
deriving DecidableEq

/-- `IngredientConstraint` in `ast.rs`. -/
structure IngredientConstraint : Type where
  span : Span
  expr : Expr
  bounds : Bounds
  alias_ : Option String
deriving DecidableEq

/-- `NutrientValue` in `ast.rs` (the value is absent for a composition
reference). -/
structure NutrientValue : Type where
  span : Span
  nutrient : Reference
  value : Option ℚ
deriving DecidableEq

/-- `ImportSelections` in `ast.rs`. -/
inductive ImportSelections : Type
  | all
  | named (names : List String)
deriving DecidableEq

/-- `Import` in `ast.rs`. -/
structure Import : Type where
  span : Span
  path : String
  alias_ : Option String
  selections : Option ImportSelections
deriving DecidableEq

/-- `Nutrient` in `ast.rs`. -/
structure Nutrient : Type where
  span : Span
  name : String
  properties : List Property
deriving DecidableEq

/-- `Ingredient` in `ast.rs` (with the template flag set by the parser). -/
structure Ingredient : Type where
  span : Span
  name : String
  isTemplate : Bool
  properties : List Property
  nutrients : List NutrientValue
deriving DecidableEq

/-- `Formula` in `ast.rs` (with the template flag set by the parser). -/
structure Formula : Type where
  span : Span
  name : String
  isTemplate : Bool
  properties : List Property
  nutrients : List NutrientConstraint
  ingredients : List IngredientConstraint
deriving DecidableEq

/-- `Item` in `ast.rs`. -/
inductive Item : Type
  | importItem (i : Import)
  | nutrient (n : Nutrient)
  | ingredient (i : Ingredient)
  | formula (f : Formula)
deriving DecidableEq

/-- `Program` in `ast.rs`. -/
structure Program : Type where
  items : List Item
deriving DecidableEq

/-! ## The parser (`parser.rs`)

Each parsing method of the Rust `Parser` mutates `self.pos` and returns a
`Result`; here a method becomes a function `PState → Except ParseError α
× PState`, returning the final cursor also on error (error recovery in
the resilient entry point resumes from it).  Loops and the recursion of
the expression grammar carry explicit fuel (every recursive call
decrements it, so all definitions are structural and kernel-evaluable);
running out of fuel yields `UnexpectedEof`. -/

/-- `ParseError` in `parser.rs`. -/
inductive ParseError : Type
  | unexpectedToken (expected found : String) (span : Span)
  | unexpectedEof
  | invalidNumber (s : String)
deriving DecidableEq

/-- The derived `Debug` rendering of `TokenKind`, used in error messages. -/
def kindDebug : TokenKind → String
  | .nutrient => "Nutrient"
  | .ingredient => "Ingredient"
  | .formula => "Formula"
  | .importKw => "Import"
  | .template => "Template"
  | .min => "Min"
  | .max => "Max"
  | .asKw => "As"
  | .ident => "Ident"
  | .number => "Number"
  | .string => "String"
  | .plus => "Plus"
  | .minus => "Minus"
  | .star => "Star"
  | .slash => "Slash"
  | .percent => "Percent"
  | .dot => "Dot"
  | .colon => "Colon"
  | .comma => "Comma"
  | .lbrace => "LBrace"
  | .rbrace => "RBrace"
  | .lbracket => "LBracket"
  | .rbracket => "RBracket"
  | .lparen => "LParen"
  | .rparen => "RParen"
  | .newline => "Newline"
  | .comment => "Comment"
  | .eof => "Eof"
  | .error => "Error"

/-- The parser cursor (`tokens` and `pos` of the Rust `Parser`). -/
structure PState : Type where
  tokens : List Token
  pos : ℕ
deriving DecidableEq

/-- `Parser::current`. -/
def current (st : PState) : Option Token := st.tokens.get? st.pos

/-- `Parser::peek_kind` (EOF when past the end). -/
def peekKind (st : PState) : TokenKind := ((current st).map (·.kind)).getD .eof

/-- The cursor advance of `Parser::advance`. -/
def advState (st : PState) : PState := { st with pos := st.pos + 1 }

/-- `self.tokens.get(self.pos.saturating_sub(1)).map(|t| t.span.end)`,
the end-of-span computation shared by several item parsers. -/
def prevEnd (st : PState) (fallback : ℕ) : ℕ :=
  match st.tokens.get? (st.pos - 1) with
  | some t => t.span.stop
  | none => fallback

/-- `Parser::skip_newlines_and_comments`. -/
def skipNC (st : PState) : PState :=
  ⟨st.tokens,
   st.pos + ((st.tokens.drop st.pos).takeWhile
     (fun t => t.kind == .newline || t.kind == .comment)).length⟩

/-- `Parser::expect`. -/
def expect (kind : TokenKind) (st : PState) : Except ParseError Token × PState :=
  let st1 := skipNC st
  match current st1 with
  | some t =>
    if t.kind = kind then (.ok t, advState st1)
    else (.error (.unexpectedToken (kindDebug kind) (kindDebug t.kind) t.span), st1)
  | none => (.error .unexpectedEof, st1)

/-- Decimal digits to a natural number. -/
def digitsToNat (l : List Char) : ℕ :=
  l.foldl (fun a c => a * 10 + (c.toNat - 48)) 0

/-- `str::parse::<f64>()` on the number literals the lexer produces
(`-?digits(.digits)?`), read exactly into `ℚ`; other shapes fail. -/
def parseNumF (s : String) : Option ℚ :=
  let l := s.data
  let sgn : ℚ := if l.headD ' ' = '-' then -1 else 1
  let l1 := if l.headD ' ' = '-' then l.drop 1 else l
  let ds := l1.takeWhile isDigitChar
  let r1 := l1.dropWhile isDigitChar
  if ds.isEmpty then none
  else
    match r1 with
    | [] => some (sgn * digitsToNat ds)
    | '.' :: fr =>
      if fr.isEmpty = false ∧ fr.all isDigitChar then
        some (sgn * ((digitsToNat ds : ℚ) + (digitsToNat fr : ℚ) / (10 : ℚ) ^ fr.length))
      else none
    | _ => none

/-- The dotted-parts loop of `Parser::parse_reference`; `selLoop` is the
`[a, b, …]` selection loop inside it. -/
def refLoop : ℕ → List ReferencePart → PState →
    Except ParseError (List ReferencePart) × PState
  | 0, _, st => (.error .unexpectedEof, st)
  | fuel + 1, parts, st =>
    if peekKind st ≠ .dot then (.ok parts, st)
    else
      let st2 := skipNC (advState st)
      match current st2 with
      | some t =>
        match t.kind with
        | .ident => refLoop fuel (parts ++ [.ident t.text]) (advState st2)
        | .min => refLoop fuel (parts ++ [.min]) (advState st2)
        | .max => refLoop fuel (parts ++ [.max]) (advState st2)
        | .lbracket =>
          match selLoop fuel [] (advState st2) with
          | (.error e, st3) => (.error e, st3)
          | (.ok names, st3) =>
            match expect .rbracket st3 with
            | (.error e, st4) => (.error e, st4)
            | (.ok _, st4) => refLoop fuel (parts ++ [.selection names]) st4
        | _ => (.ok parts, st2)
      | none => (.ok parts, st2)
where
  selLoop : ℕ → List String → PState → Except ParseError (List String) × PState
  | 0, _, st => (.error .unexpectedEof, st)
  | fuel + 1, names, st =>
    let st1 := skipNC st
    if peekKind st1 = .rbracket then (.ok names, st1)
    else
      match expect .ident st1 with
      | (.error e, st2) => (.error e, st2)
      | (.ok t, st2) =>
        let st3 := skipNC st2
        if peekKind st3 = .comma then selLoop fuel (names ++ [t.text]) (advState st3)
        else selLoop fuel (names ++ [t.text]) st3

/-- `Parser::parse_reference`. -/
def parseReference (fuel : ℕ) (st : PState) : Except ParseError Reference × PState :=
  let start := match current st with | some t => t.span | none => ⟨0, 0⟩
  match expect .ident st with
  | (.error e, st1) => (.error e, st1)
  | (.ok first, st1) =>
    match refLoop fuel [.ident first.text] st1 with
    | (.error e, st2) => (.error e, st2)
    | (.ok parts, st2) =>
      (.ok { span := ⟨start.start, prevEnd st2 start.stop⟩, parts := parts }, st2)

/-- The operator table of `parse_additive`. -/
def additiveOp : TokenKind → Option BinaryOp
  | .plus => some .add
  | .minus => some .sub
  | _ => none

/-- The operator table of `parse_multiplicative`. -/
def multiplicativeOp : TokenKind → Option BinaryOp
  | .star => some .mul
  | .slash => some .div
  | _ => none

/-- The left-associative operator loop shared (textually) by
`parse_additive` and `parse_multiplicative`. -/
def parseBinLoop (sub : PState → Except ParseError Expr × PState)
    (opOf : TokenKind → Option BinaryOp) :
    ℕ → Expr → PState → Except ParseError Expr × PState
  | 0, _, st => (.error .unexpectedEof, st)
  | fuel + 1, left, st =>
    let st1 := skipNC st
    match opOf (peekKind st1) with
    | none => (.ok left, st1)
    | some op =>
      match sub (advState st1) with
      | (.error e, st2) => (.error e, st2)
      | (.ok right, st2) => parseBinLoop sub opOf fuel (.binaryOp left op right) st2

/-- `Parser::parse_primary`, with the recursive call back into
`parse_expr` (for parentheses) supplied as `pe`. -/
def parsePrimary (pe : PState → Except ParseError Expr × PState) (fuel : ℕ)
    (st : PState) : Except ParseError Expr × PState :=
  let st1 := skipNC st
  match current st1 with
  | some t =>
    match t.kind with
    | .number =>
      match parseNumF t.text with
      | some v => (.ok (.num v), advState st1)
      | none => (.error (.invalidNumber t.text), advState st1)
    | .ident =>
      match parseReference fuel st1 with
      | (.error e, st2) => (.error e, st2)
      | (.ok r, st2) => (.ok (.reference r), st2)
    | .lparen =>
      match pe (advState st1) with
      | (.error e, st2) => (.error e, st2)
      | (.ok e, st2) =>
        match expect .rparen st2 with
        | (.error err, st3) => (.error err, st3)
        | (.ok _, st3) => (.ok (.paren e), st3)
    | _ => (.error (.unexpectedToken "number, identifier, or (" (kindDebug t.kind) t.span), st1)
  | none => (.error .unexpectedEof, st1)

/-- `Parser::parse_multiplicative`. -/
def parseMultiplicative (pe : PState → Except ParseError Expr × PState) (fuel : ℕ)
    (st : PState) : Except ParseError Expr × PState :=
  match parsePrimary pe fuel st with
  | (.error e, st1) => (.error e, st1)
  | (.ok left, st1) => parseBinLoop (parsePrimary pe fuel) multiplicativeOp fuel left st1

/-- `Parser::parse_additive`. -/
def parseAdditive (pe : PState → Except ParseError Expr × PState) (fuel : ℕ)
    (st : PState) : Except ParseError Expr × PState :=
  match parseMultiplicative pe fuel st with
  | (.error e, st1) => (.error e, st1)
  | (.ok left, st1) => parseBinLoop (parseMultiplicative pe fuel) additiveOp fuel left st1

/-- `Parser::parse_expr`. -/
def parseExpr : ℕ → PState → Except ParseError Expr × PState
  | 0, st => (.error .unexpectedEof, st)
  | fuel + 1, st => parseAdditive (parseExpr fuel) fuel st

/-- `Parser::expr_span`. -/
def exprSpan : Expr → Span
  | .num _ => ⟨0, 0⟩
  | .reference r => r.span
  | .binaryOp l _ r => ⟨(exprSpan l).start, (exprSpan r).stop⟩
  | .paren inner => exprSpan inner

/-- `str::trim_matches('"')` as used on string-literal tokens. -/
def stripQuotes (s : String) : String :=
  ⟨((s.data.dropWhile (· = '"')).reverse.dropWhile (· = '"')).reverse⟩

/-- `Parser::parse_property`. -/
def parseProperty (fuel : ℕ) (st : PState) : Except ParseError Property × PState :=
  match expect .ident st with
  | (.error e, st1) => (.error e, st1)
  | (.ok nameTok, st1) =>
    let st2 := skipNC st1
    match peekKind st2 with
    | .string =>
      match current st2 with
      | some t =>
        (.ok { span := ⟨nameTok.span.start, t.span.stop⟩, name := nameTok.text,
               value := .string (stripQuotes t.text) }, advState st2)
      | none => (.error .unexpectedEof, st2)
    | .number =>
      parsePropertyExprTail fuel nameTok st2
    | .ident =>
      parsePropertyExprTail fuel nameTok st2
    | _ =>
      match current st2 with
      | some t =>
        (.error (.unexpectedToken "string, number, or expression" (kindDebug t.kind) t.span), st2)
      | none => (.error .unexpectedEof, st2)
where
  /-- The expression branch of `parse_property`, including the conversion
  of simple expressions to simpler `PropertyValue` variants. -/
  parsePropertyExprTail (fuel : ℕ) (nameTok : Token) (st2 : PState) :
      Except ParseError Property × PState :=
    match parseExpr fuel st2 with
    | (.error e, st3) => (.error e, st3)
    | (.ok e, st3) =>
      let value :=
        match e with
        | .num n => PropertyValue.number n
        | .reference r =>
          if r.parts.length = 1 then
            match r.parts.headD (.min) with
            | .ident nm => PropertyValue.ident nm
            | _ => PropertyValue.expr e
          else PropertyValue.expr e
        | _ => PropertyValue.expr e
      (.ok { span := ⟨nameTok.span.start, (exprSpan e).stop⟩, name := nameTok.text,
             value := value }, st3)

/-- `Parser::parse_bound_value`. -/
def parseBoundValue (allowPercent : Bool) (st : PState) :
    Except ParseError BoundValue × PState :=
  match expect .number st with
  | (.error e, st1) => (.error e, st1)
  | (.ok tok, st1) =>
    match parseNumF tok.text with
    | none => (.error (.invalidNumber tok.text), st1)
    | some v =>
      if allowPercent ∧ peekKind st1 = .percent then (.ok ⟨v, true⟩, advState st1)
      else (.ok ⟨v, false⟩, st1)

/-- The `min`/`max` loop of `Parser::parse_bounds`. -/
def parseBoundsGo (allowPercent : Bool) :
    ℕ → Option BoundValue → Option BoundValue → PState →
    Except ParseError Bounds × PState
  | 0, _, _, st => (.error .unexpectedEof, st)
  | fuel + 1, mn, mx, st =>
    let st1 := skipNC st
    match peekKind st1 with
    | .min =>
      match parseBoundValue allowPercent (advState st1) with
      | (.error e, st2) => (.error e, st2)
      | (.ok b, st2) => parseBoundsGo allowPercent fuel (some b) mx st2
    | .max =>
      match parseBoundValue allowPercent (advState st1) with
      | (.error e, st2) => (.error e, st2)
      | (.ok b, st2) => parseBoundsGo allowPercent fuel mn (some b) st2
    | _ => (.ok ⟨mn, mx⟩, st1)

/-- `Parser::parse_bounds`. -/
def parseBounds (allowPercent : Bool) (fuel : ℕ) (st : PState) :
    Except ParseError Bounds × PState :=
  parseBoundsGo allowPercent fuel none none st

/-- The optional `as IDENT` alias suffix shared by the constraint
parsers. -/
def parseAliasSuffix (st : PState) : Except ParseError (Option String) × PState :=
  let st1 := skipNC st
  if peekKind st1 = .asKw then
    match expect .ident (advState st1) with
    | (.error e, st2) => (.error e, st2)
    | (.ok t, st2) => (.ok (some t.text), st2)
  else (.ok none, st1)

/-- `Parser::parse_nutrient_constraint`. -/
def parseNutrientConstraint (fuel : ℕ) (st : PState) :
    Except ParseError NutrientConstraint × PState :=
  let start := match current st with | some t => t.span | none => ⟨0, 0⟩
  match parseExpr fuel st with
  | (.error e, st1) => (.error e, st1)
  | (.ok e, st1) =>
    match parseBounds false fuel st1 with
    | (.error err, st2) => (.error err, st2)
    | (.ok bounds, st2) =>
      match parseAliasSuffix st2 with
      | (.error err, st3) => (.error err, st3)
      | (.ok alias_, st3) =>
        (.ok { span := ⟨start.start, prevEnd st3 start.stop⟩, expr := e,
               bounds := bounds, alias_ := alias_ }, st3)

/-- `Parser::parse_ingredient_constraint`. -/
def parseIngredientConstraint (fuel : ℕ) (st : PState) :
    Except ParseError IngredientConstraint × PState :=
  let start := match current st with | some t => t.span | none => ⟨0, 0⟩
  match parseExpr fuel st with
  | (.error e, st1) => (.error e, st1)
  | (.ok e, st1) =>
    match parseBounds true fuel st1 with
    | (.error err, st2) => (.error err, st2)
    | (.ok bounds, st2) =>
      match parseAliasSuffix st2 with
      | (.error err, st3) => (.error err, st3)
      | (.ok alias_, st3) =>
        (.ok { span := ⟨start.start, prevEnd st3 start.stop⟩, expr := e,
               bounds := bounds, alias_ := alias_ }, st3)

/-- `Parser::parse_nutrient_value`. -/
def parseNutrientValue (fuel : ℕ) (st : PState) :
    Except ParseError NutrientValue × PState :=
  let start := match current st with | some t => t.span | none => ⟨0, 0⟩
  match parseReference fuel st with
  | (.error e, st1) => (.error e, st1)
  | (.ok r, st1) =>
    let st2 := skipNC st1
    if peekKind st2 = .number then
      match current st2 with
      | some tok =>
        match parseNumF tok.text with
        | none => (.error (.invalidNumber tok.text), advState st2)
        | some v =>
          (.ok { span := ⟨start.start, tok.span.stop⟩, nutrient := r, value := some v },
           advState st2)
      | none => (.error .unexpectedEof, st2)
    else
      (.ok { span := ⟨start.start, prevEnd st2 start.stop⟩, nutrient := r, value := none },
       st2)

/-- The path loop of `Parser::parse_import`. -/
def importPathLoop : ℕ → String → PState → String × PState
  | 0, path, st => (path, st)
  | fuel + 1, path, st =>
    let st1 := skipNC st
    match current st1 with
    | some t =>
      match t.kind with
      | .dot => importPathLoop fuel (path ++ ".") (advState st1)
      | .slash => importPathLoop fuel (path ++ "/") (advState st1)
      | .ident => importPathLoop fuel (path ++ t.text) (advState st1)
      | _ => (path, st1)
    | none => (path, st1)

/-- The `{ name, … }` selection-list loop of `Parser::parse_import`. -/
def importNamesLoop : ℕ → List String → PState →
    Except ParseError (List String) × PState
  | 0, _, st => (.error .unexpectedEof, st)
  | fuel + 1, names, st =>
    let st1 := skipNC st
    if peekKind st1 = .rbrace then (.ok names, st1)
    else
      match expect .ident st1 with
      | (.error e, st2) => (.error e, st2)
      | (.ok t, st2) =>
        let st3 := skipNC st2
        if peekKind st3 = .comma then importNamesLoop fuel (names ++ [t.text]) (advState st3)
        else importNamesLoop fuel (names ++ [t.text]) st3

/-- `Parser::parse_import`. -/
def parseImport (fuel : ℕ) (st : PState) : Except ParseError Import × PState :=
  match expect .importKw st with
  | (.error e, st1) => (.error e, st1)
  | (.ok startTok, st1) =>
    let start := startTok.span
    let (path0, st2) := importPathLoop fuel "" st1
    let st3 := skipNC st2
    let extStep : Except ParseError String × PState :=
      if peekKind st3 = .dot then
        match expect .ident (advState st3) with
        | (.error e, st4) => (.error e, st4)
        | (.ok ext, st4) => (.ok (path0 ++ "." ++ ext.text), st4)
      else (.ok path0, st3)
    match extStep with
    | (.error e, st4) => (.error e, st4)
    | (.ok path, st4) =>
      -- `as` alias check: the lexer turns `as` into the `As` keyword, so
      -- the `Ident`-with-text-"as" test here can never fire (kept as in
      -- the source).
      let st5 := skipNC st4
      let aliasStep : Except ParseError (Option String) × PState :=
        if peekKind st5 = .ident then
          match current st5 with
          | some t =>
            if t.text = "as" then
              match expect .ident (advState st5) with
              | (.error e, st6) => (.error e, st6)
              | (.ok nm, st6) => (.ok (some nm.text), st6)
            else (.ok none, st5)
          | none => (.ok none, st5)
        else (.ok none, st5)
      match aliasStep with
      | (.error e, st6) => (.error e, st6)
      | (.ok alias_, st6) =>
        let st7 := skipNC st6
        let selStep : Except ParseError (Option ImportSelections) × PState :=
          if peekKind st7 = .lbrace then
            let st8 := skipNC (advState st7)
            if peekKind st8 = .star then
              match expect .rbrace (advState st8) with
              | (.error e, st9) => (.error e, st9)
              | (.ok _, st9) => (.ok (some .all), st9)
            else
              match importNamesLoop fuel [] st8 with
              | (.error e, st9) => (.error e, st9)
              | (.ok names, st9) =>
                match expect .rbrace st9 with
                | (.error e, st10) => (.error e, st10)
                | (.ok _, st10) => (.ok (some (.named names)), st10)
          else (.ok none, st7)
        match selStep with
        | (.error e, st8) => (.error e, st8)
        | (.ok selections, st8) =>
          (.ok { span := ⟨start.start, prevEnd st8 start.stop⟩, path := path,
                 alias_ := alias_, selections := selections }, st8)

/-- The property loop of `Parser::parse_nutrient`. -/
def nutrientPropsLoop : ℕ → List Property → PState →
    Except ParseError (List Property) × PState
  | 0, _, st => (.error .unexpectedEof, st)
  | fuel + 1, props, st =>
    let st1 := skipNC st
    if peekKind st1 = .rbrace then (.ok props, st1)
    else
      match parseProperty fuel st1 with
      | (.error e, st2) => (.error e, st2)
      | (.ok p, st2) => nutrientPropsLoop fuel (props ++ [p]) st2

/-- `Parser::parse_nutrient`. -/
def parseNutrient (fuel : ℕ) (st : PState) : Except ParseError Nutrient × PState :=
  match expect .nutrient st with
  | (.error e, st1) => (.error e, st1)
  | (.ok startTok, st1) =>
    match expect .ident st1 with
    | (.error e, st2) => (.error e, st2)
    | (.ok nameTok, st2) =>
      match expect .lbrace st2 with
      | (.error e, st3) => (.error e, st3)
      | (.ok _, st3) =>
        match nutrientPropsLoop fuel [] st3 with
        | (.error e, st4) => (.error e, st4)
        | (.ok props, st4) =>
          match expect .rbrace st4 with
          | (.error e, st5) => (.error e, st5)
          | (.ok endTok, st5) =>
            (.ok { span := ⟨startTok.span.start, endTok.span.stop⟩,
                   name := nameTok.text, properties := props }, st5)

/-- The nutrient-value list loop of `Parser::parse_ingredient`. -/
def nutrientValuesLoop : ℕ → List NutrientValue → PState →
    Except ParseError (List NutrientValue) × PState
  | 0, _, st => (.error .unexpectedEof, st)
  | fuel + 1, nvs, st =>
    let st1 := skipNC st
    if peekKind st1 = .rbrace then (.ok nvs, st1)
    else
      match parseNutrientValue fuel st1 with
      | (.error e, st2) => (.error e, st2)
      | (.ok nv, st2) => nutrientValuesLoop fuel (nvs ++ [nv]) st2

/-- The body loop of `Parser::parse_ingredient` (properties or a
`nutrients`/`nuts` block). -/
def ingredientBodyLoop : ℕ → List Property → List NutrientValue → PState →
    Except ParseError (List Property × List NutrientValue) × PState
  | 0, _, _, st => (.error .unexpectedEof, st)
  | fuel + 1, props, nuts, st =>
    let st1 := skipNC st
    match current st1 with
    | some t =>
      match t.kind with
      | .rbrace => (.ok (props, nuts), st1)
      | .ident =>
        if t.text = "nutrients" ∨ t.text = "nuts" then
          match expect .lbrace (advState st1) with
          | (.error e, st2) => (.error e, st2)
          | (.ok _, st2) =>
            match nutrientValuesLoop fuel [] st2 with
            | (.error e, st3) => (.error e, st3)
            | (.ok nvs, st3) =>
              match expect .rbrace st3 with
              | (.error e, st4) => (.error e, st4)
              | (.ok _, st4) => ingredientBodyLoop fuel props (nuts ++ nvs) st4
        else
          match parseProperty fuel st1 with
          | (.error e, st2) => (.error e, st2)
          | (.ok p, st2) => ingredientBodyLoop fuel (props ++ [p]) nuts st2
      | _ =>
        (.error (.unexpectedToken "property or nutrients block" (kindDebug t.kind) t.span), st1)
    | none => (.error .unexpectedEof, st1)

/-- `Parser::parse_ingredient`. -/
def parseIngredient (isTemplate : Bool) (fuel : ℕ) (st : PState) :
    Except ParseError Ingredient × PState :=
  match expect .ingredient st with
  | (.error e, st1) => (.error e, st1)
  | (.ok startTok, st1) =>
    match expect .ident st1 with
    | (.error e, st2) => (.error e, st2)
    | (.ok nameTok, st2) =>
      match expect .lbrace st2 with
      | (.error e, st3) => (.error e, st3)
      | (.ok _, st3) =>
        match ingredientBodyLoop fuel [] [] st3 with
        | (.error e, st4) => (.error e, st4)
        | (.ok body, st4) =>
          match expect .rbrace st4 with
          | (.error e, st5) => (.error e, st5)
          | (.ok endTok, st5) =>
            (.ok { span := ⟨startTok.span.start, endTok.span.stop⟩,
                   name := nameTok.text, isTemplate := isTemplate,
                   properties := body.1, nutrients := body.2 }, st5)

/-- The nutrient-constraint list loop of `Parser::parse_formula`. -/
def nutrientConstraintsLoop : ℕ → List NutrientConstraint → PState →
    Except ParseError (List NutrientConstraint) × PState
  | 0, _, st => (.error .unexpectedEof, st)
  | fuel + 1, ncs, st =>
    let st1 := skipNC st
    if peekKind st1 = .rbrace then (.ok ncs, st1)
    else
      match parseNutrientConstraint fuel st1 with
      | (.error e, st2) => (.error e, st2)
      | (.ok nc, st2) => nutrientConstraintsLoop fuel (ncs ++ [nc]) st2

/-- The ingredient-constraint list loop of `Parser::parse_formula`. -/
def ingredientConstraintsLoop : ℕ → List IngredientConstraint → PState →
    Except ParseError (List IngredientConstraint) × PState
  | 0, _, st => (.error .unexpectedEof, st)
  | fuel + 1, ics, st =>
    let st1 := skipNC st
    if peekKind st1 = .rbrace then (.ok ics, st1)
    else
      match parseIngredientConstraint fuel st1 with
      | (.error e, st2) => (.error e, st2)
      | (.ok ic, st2) => ingredientConstraintsLoop fuel (ics ++ [ic]) st2

/-- The body loop of `Parser::parse_formula` (properties, a
`nutrients`/`nuts` block, or an `ingredients`/`ings` block). -/
def formulaBodyLoop : ℕ → List Property → List NutrientConstraint →
    List IngredientConstraint → PState →
    Except ParseError (List Property × List NutrientConstraint ×
      List IngredientConstraint) × PState
  | 0, _, _, _, st => (.error .unexpectedEof, st)
  | fuel + 1, props, nuts, ings, st =>
    let st1 := skipNC st
    match current st1 with
    | some t =>
      match t.kind with
      | .rbrace => (.ok (props, nuts, ings), st1)
      | .ident =>
        if t.text = "nutrients" ∨ t.text = "nuts" then
          match expect .lbrace (advState st1) with
          | (.error e, st2) => (.error e, st2)
          | (.ok _, st2) =>
            match nutrientConstraintsLoop fuel [] st2 with
            | (.error e, st3) => (.error e, st3)
            | (.ok ncs, st3) =>
              match expect .rbrace st3 with
              | (.error e, st4) => (.error e, st4)
              | (.ok _, st4) => formulaBodyLoop fuel props (nuts ++ ncs) ings st4
        else if t.text = "ingredients" ∨ t.text = "ings" then
          match expect .lbrace (advState st1) with
          | (.error e, st2) => (.error e, st2)
          | (.ok _, st2) =>
            match ingredientConstraintsLoop fuel [] st2 with
            | (.error e, st3) => (.error e, st3)
            | (.ok ics, st3) =>
              match expect .rbrace st3 with
              | (.error e, st4) => (.error e, st4)
              | (.ok _, st4) => formulaBodyLoop fuel props nuts (ings ++ ics) st4
        else
          match parseProperty fuel st1 with
          | (.error e, st2) => (.error e, st2)
          | (.ok p, st2) => formulaBodyLoop fuel (props ++ [p]) nuts ings st2
      | _ =>
        (.error (.unexpectedToken "property, nutrients, or ingredients block"
          (kindDebug t.kind) t.span), st1)
    | none => (.error .unexpectedEof, st1)

/-- `Parser::parse_formula`. -/
def parseFormula (isTemplate : Bool) (fuel : ℕ) (st : PState) :
    Except ParseError Formula × PState :=
  match expect .formula st with
  | (.error e, st1) => (.error e, st1)
  | (.ok startTok, st1) =>
    match expect .ident st1 with
    | (.error e, st2) => (.error e, st2)
    | (.ok nameTok, st2) =>
      match expect .lbrace st2 with
      | (.error e, st3) => (.error e, st3)
      | (.ok _, st3) =>
        match formulaBodyLoop fuel [] [] [] st3 with
        | (.error e, st4) => (.error e, st4)
        | (.ok body, st4) =>
          match expect .rbrace st4 with
          | (.error e, st5) => (.error e, st5)
          | (.ok endTok, st5) =>
            (.ok { span := ⟨startTok.span.start, endTok.span.stop⟩,
                   name := nameTok.text, isTemplate := isTemplate,
                   properties := body.1, nutrients := body.2.1,
                   ingredients := body.2.2 }, st5)

/-- `Parser::skip_to_next_item`: scan forward tracking brace depth; stop
at EOF, at a top-level keyword at depth 0, or after the `}` that closes
depth 0. -/
def skipToNextItem : ℕ → ℕ → PState → PState
  | 0, _, st => st
  | fuel + 1, depth, st =>
    match current st with
    | none => st
    | some t =>
      match t.kind with
      | .eof => st
      | .lbrace => skipToNextItem fuel (depth + 1) (advState st)
      | .rbrace =>
        let d := if depth > 0 then depth - 1 else depth
        if d = 0 then advState st else skipToNextItem fuel d (advState st)
      | .nutrient =>
        if depth = 0 then st else skipToNextItem fuel depth (advState st)
      | .ingredient =>
        if depth = 0 then st else skipToNextItem fuel depth (advState st)
      | .formula =>
        if depth = 0 then st else skipToNextItem fuel depth (advState st)
      | .template =>
        if depth = 0 then st else skipToNextItem fuel depth (advState st)
      | .importKw =>
        if depth = 0 then st else skipToNextItem fuel depth (advState st)
      | _ => skipToNextItem fuel depth (advState st)

/-- `Parser::parse_program` (the strict entry point's loop). -/
def parseProgramLoop : ℕ → PState → List Item → Except ParseError Program
  | 0, _, _ => .error .unexpectedEof
  | fuel + 1, st, items =>
    let st1 := skipNC st
    match peekKind st1 with
    | .eof => .ok ⟨items⟩
    | .importKw =>
      match parseImport fuel st1 with
      | (.error e, _) => .error e
      | (.ok it, st2) => parseProgramLoop fuel st2 (items ++ [.importItem it])
    | .nutrient =>
      match parseNutrient fuel st1 with
      | (.error e, _) => .error e
      | (.ok it, st2) => parseProgramLoop fuel st2 (items ++ [.nutrient it])
    | .ingredient =>
      match parseIngredient false fuel st1 with
      | (.error e, _) => .error e
      | (.ok it, st2) => parseProgramLoop fuel st2 (items ++ [.ingredient it])
    | .formula =>
      match parseFormula false fuel st1 with
      | (.error e, _) => .error e
      | (.ok it, st2) => parseProgramLoop fuel st2 (items ++ [.formula it])
    | .template =>
      let st2 := skipNC (advState st1)
      match peekKind st2 with
      | .ingredient =>
        match parseIngredient true fuel st2 with
        | (.error e, _) => .error e
        | (.ok it, st3) => parseProgramLoop fuel st3 (items ++ [.ingredient it])
      | .formula =>
        match parseFormula true fuel st2 with
        | (.error e, _) => .error e
        | (.ok it, st3) => parseProgramLoop fuel st3 (items ++ [.formula it])
      | _ =>
        match current st2 with
        | some t =>
          .error (.unexpectedToken "ingredient or formula after 'template'"
            (kindDebug t.kind) t.span)
        | none => .error .unexpectedEof
    | _ =>
      match current st1 with
      | some t =>
        .error (.unexpectedToken "import, nutrient, ingredient, formula, or template"
          (kindDebug t.kind) t.span)
      | none => .error .unexpectedEof

/-- `Parser::parse_program_resilient` (the resilient entry point's loop):
the same grammar, but an error is recorded and parsing resumes at the
next item boundary. -/
def parseProgramResilientLoop : ℕ → PState → List Item → List ParseError →
    Program × List ParseError
  | 0, _, items, errors => (⟨items⟩, errors)
  | fuel + 1, st, items, errors =>
    let st1 := skipNC st
    match peekKind st1 with
    | .eof => (⟨items⟩, errors)
    | .importKw =>
      match parseImport fuel st1 with
      | (.error e, st2) =>
        parseProgramResilientLoop fuel (skipToNextItem fuel 0 st2) items (errors ++ [e])
      | (.ok it, st2) => parseProgramResilientLoop fuel st2 (items ++ [.importItem it]) errors
    | .nutrient =>
      match parseNutrient fuel st1 with
      | (.error e, st2) =>
        parseProgramResilientLoop fuel (skipToNextItem fuel 0 st2) items (errors ++ [e])
      | (.ok it, st2) => parseProgramResilientLoop fuel st2 (items ++ [.nutrient it]) errors
    | .ingredient =>
      match parseIngredient false fuel st1 with
      | (.error e, st2) =>
        parseProgramResilientLoop fuel (skipToNextItem fuel 0 st2) items (errors ++ [e])
      | (.ok it, st2) => parseProgramResilientLoop fuel st2 (items ++ [.ingredient it]) errors
    | .formula =>
      match parseFormula false fuel st1 with
      | (.error e, st2) =>
        parseProgramResilientLoop fuel (skipToNextItem fuel 0 st2) items (errors ++ [e])
      | (.ok it, st2) => parseProgramResilientLoop fuel st2 (items ++ [.formula it]) errors
    | .template =>
      let st2 := skipNC (advState st1)
      match peekKind st2 with
      | .ingredient =>
        match parseIngredient true fuel st2 with
        | (.error e, st3) =>
          parseProgramResilientLoop fuel (skipToNextItem fuel 0 st3) items (errors ++ [e])
        | (.ok it, st3) => parseProgramResilientLoop fuel st3 (items ++ [.ingredient it]) errors
      | .formula =>
        match parseFormula true fuel st2 with
        | (.error e, st3) =>
          parseProgramResilientLoop fuel (skipToNextItem fuel 0 st3) items (errors ++ [e])
        | (.ok it, st3) => parseProgramResilientLoop fuel st3 (items ++ [.formula it]) errors
      | _ =>
        let errors' :=
          match current st2 with
          | some t =>
            errors ++ [ParseError.unexpectedToken "ingredient or formula after 'template'"
              (kindDebug t.kind) t.span]
          | none => errors
        parseProgramResilientLoop fuel (skipToNextItem fuel 0 st2) items errors'
    | _ =>
      let errors' :=
        match current st1 with
        | some t =>
          errors ++ [ParseError.unexpectedToken
            "import, nutrient, ingredient, formula, or template" (kindDebug t.kind) t.span]
        | none => errors
      parseProgramResilientLoop fuel (advState st1) items errors'

/-- The fuel supplied to the parsing loops by the entry points: ample for
any token stream of the given source (the claims quantify over the fuel,
so no sufficiency proof is needed). -/
def parserFuel (source : String) : ℕ := source.data.length * 4 + 64

/-- `Parser::parse`. -/
def Parser.parse (source : String) : Except ParseError Program :=
  parseProgramLoop (parserFuel source) ⟨tokenize source.data, 0⟩ []

/-- `Parser::parse_resilient`. -/
def Parser.parseResilient (source : String) : Program × List ParseError :=
  parseProgramResilientLoop (parserFuel source) ⟨tokenize source.data, 0⟩ [] []

/-! ## The formula compiler (`compiler.rs`)

Loading (`load_file`, imports, the symbol-table build) is file-system
bound and outside the claims; `compile_formula` and everything it calls
is embedded, over an explicitly given `SymbolTable`.  Hash maps are
association lists in insertion order; the nutrient-name set collected
from a `HashSet` keeps first-seen order (its order is unobservable in the
claims).  The recursion through base-formula references and through
property references carries fuel (the Rust code has no cycle detection
and would overflow its stack on a cycle); exhausting it yields the
`CircularReference` error. -/

/-- `CompileError` in `compiler.rs`. -/
inductive CompileError : Type
  | unknownNutrient (s : String)
  | unknownIngredient (s : String)
  | unknownFormula (s : String)
  | missingBatchSize (s : String)
  | missingCost (s : String)
  | circularReference (s : String)
  | percentInNutrientConstraint
  | invalidReference (s : String)
  | ioError (s : String)
  | parseError (path msg : String)
  | importCycle (s : String)
  | cannotSolveTemplate (s : String)
  | invalidPropertyReference (s : String)
  | divisionByZero
deriving DecidableEq

/-- `CompiledNutrient` in `compiler.rs`. -/
structure CompiledNutrient : Type where
  name : String
  displayName : Option String
  code : Option String
  unit : Option String
deriving DecidableEq

/-- `CompiledIngredient` in `compiler.rs` (`nutrients` is the resolved
nutrient map as an association list). -/
structure CompiledIngredient : Type where
  name : String
  displayName : Option String
  code : Option String
  isTemplate : Bool
  cost : ℚ
  nutrients : List (String × ℚ)
deriving DecidableEq

/-- `SymbolTable` in `compiler.rs` (the `nutrient_constraints` /
`ingredient_constraints` cache fields are declared but never read by the
compiler, and are omitted). -/
structure SymbolTable : Type where
  nutrients : List (String × CompiledNutrient)
  ingredients : List (String × CompiledIngredient)
  formulas : List (String × Formula)
deriving DecidableEq

/-- `CompiledFormula` in `compiler.rs`. -/
structure CompiledFormula : Type where
  name : String
  displayName : Option String
  code : Option String
  description : Option String
  batchSize : ℚ
  ingredients : List String
  ingredientCosts : List ℚ
  ingredientNutrients : List (List (String × ℚ))
  nutrientNames : List String
  nutrientUnits : List (Option String)
  lpProblem : LpProblem
deriving DecidableEq

/-- `ReferenceDetails` in `compiler.rs`. -/
structure ReferenceDetails : Type where
  formulaName : String
  blockType : String
  itemName : Option String
  minOnly : Bool
  maxOnly : Bool
deriving DecidableEq

/-- `property_matches`: exact name or the `batch`/`desc` aliases. -/
def propertyMatches (propertyName target : String) : Bool :=
  if propertyName = target then true
  else if propertyName = "batch" ∧ target = "batch_size" then true
  else if propertyName = "desc" ∧ target = "description" then true
  else false

/-- `get_string_property`. -/
def getStringProperty (properties : List Property) (name : String) : Option String :=
  properties.findSome? (fun p =>
    if propertyMatches p.name name then
      match p.value with
      | .string s => some s
      | .ident s => some s
      | _ => none
    else none)

/-- `get_number_property`. -/
def getNumberProperty (properties : List Property) (name : String) : Option ℚ :=
  properties.findSome? (fun p =>
    if propertyMatches p.name name then
      match p.value with
      | .number n => some n
      | _ => none
    else none)

/-- `get_bool_property`. -/
def getBoolProperty (properties : List Property) (name : String) : Option Bool :=
  properties.findSome? (fun p =>
    if propertyMatches p.name name then
      match p.value with
      | .ident s =>
        if s.toLower = "true" ∨ s.toLower = "yes" ∨ s.toLower = "1" then some true
        else if s.toLower = "false" ∨ s.toLower = "no" ∨ s.toLower = "0" then some false
        else none
      | .number n => some (decide (n ≠ 0))
      | _ => none
    else none)

/-- `reference_to_string`: the dotted identifier path. -/
def referenceToString (r : Reference) : String :=
  String.intercalate "." (r.parts.filterMap (fun p =>
    match p with
    | .ident s => some s
    | _ => none))

/-- The evaluation of a property expression (`evaluate_property_expr`),
with the resolution of a two-part reference supplied as `resolveRef`
(in the source that is the mutually recursive call back into
`resolve_property_reference`). -/
def evalExprWith (resolveRef : Reference → Except CompileError ℚ) :
    Expr → Except CompileError ℚ
  | .num n => .ok n
  | .reference r => resolveRef r
  | .binaryOp l op r => do
    let lv ← evalExprWith resolveRef l
    let rv ← evalExprWith resolveRef r
    match op with
    | .add => .ok (lv + rv)
    | .sub => .ok (lv - rv)
    | .mul => .ok (lv * rv)
    | .div => if rv = 0 then .error .divisionByZero else .ok (lv / rv)
  | .paren inner => evalExprWith resolveRef inner

/-- The property lookup of `resolve_number_property`, parameterised the
same way. -/
def resolveNumberPropertyWith (resolveRef : Reference → Except CompileError ℚ)
    (properties : List Property) (name : String) : Except CompileError (Option ℚ) :=
  match properties.find? (fun p => propertyMatches p.name name) with
  | none => .ok none
  | some p =>
    match p.value with
    | .number n => .ok (some n)
    | .expr e => (evalExprWith resolveRef e).map some
    | _ => .ok none

/-- `resolve_property_reference`: `ingredient.cost` or
`formula.(batch|batch_size)`; the recursion into another formula's
property expressions consumes fuel (the Rust code recurses on the call
stack with no cycle check). -/
def resolvePropertyReference : ℕ → SymbolTable → Reference → Except CompileError ℚ
  | 0, _, r => .error (.circularReference (referenceToString r))
  | fuel + 1, st, r =>
    if r.parts.length ≠ 2 then
      .error (.invalidPropertyReference (referenceToString r))
    else
      match r.parts.headD (.min), (r.parts.drop 1).headD (.min) with
      | .ident itemName, .ident propName =>
        (match lookupAL st.ingredients itemName with
         | some ing =>
           if propName = "cost" then .ok ing.cost
           else .error (.invalidPropertyReference (itemName ++ "." ++ propName))
         | none =>
           match lookupAL st.formulas itemName with
           | some formula =>
             if propName = "batch" ∨ propName = "batch_size" then do
               let a ← resolveNumberPropertyWith (resolvePropertyReference fuel st)
                 formula.properties "batch_size"
               let b ← resolveNumberPropertyWith (resolvePropertyReference fuel st)
                 formula.properties "batch"
               match a.or b with
               | some v => .ok v
               | none => .error (.invalidPropertyReference (itemName ++ "." ++ propName))
             else .error (.invalidPropertyReference (itemName ++ "." ++ propName))
           | none => .error (.invalidPropertyReference (itemName ++ "." ++ propName)))
      | .ident _, _ => .error (.invalidPropertyReference "invalid property")
      | _, _ => .error (.invalidPropertyReference "invalid reference")

/-- `evaluate_property_expr`. -/
def evaluatePropertyExpr (fuel : ℕ) (st : SymbolTable) (e : Expr) :
    Except CompileError ℚ :=
  evalExprWith (resolvePropertyReference fuel st) e

/-- `resolve_number_property`. -/
def resolveNumberProperty (fuel : ℕ) (st : SymbolTable) (properties : List Property)
    (name : String) : Except CompileError (Option ℚ) :=
  resolveNumberPropertyWith (resolvePropertyReference fuel st) properties name

/-- `constraint_key`: the canonical expression key used for override
matching (numbers are rendered through `ℚ`'s `toString`, standing in for
`f64`'s `Display`; both renderings are injective, which is all the key is
used for). -/
def constraintKey : Expr → String
  | .reference r => referenceToString r
  | .binaryOp l op r => constraintKey l ++ op.display ++ constraintKey r
  | .paren inner => constraintKey inner
  | .num n => toString n

/-- `get_base_reference`: recognise `base.nutrients[...]` /
`base.ingredients[...]` (aliases `nuts`/`ings`) composition references
and extract their details. -/
def getBaseReference (e : Expr) : Option ReferenceDetails :=
  match e with
  | .reference r =>
    if r.parts.length ≥ 2 then
      match r.parts.headD (.min), (r.parts.drop 1).headD (.min) with
      | .ident formula, .ident block =>
        if block = "nutrients" ∨ block = "ingredients" ∨ block = "nuts" ∨ block = "ings" then
          let blockNormalized :=
            if block = "nuts" then "nutrients"
            else if block = "ings" then "ingredients"
            else block
          let part2 := (r.parts.drop 2).headD (.selection [])
          let itemName :=
            match part2 with
            | .ident name => some name
            | _ => none
          let minMax0 : Bool × Bool :=
            if r.parts.length ≥ 3 then
              match part2 with
              | .min => (true, false)
              | .max => (false, true)
              | _ => (false, false)
            else (false, false)
          let minMax : Bool × Bool :=
            if r.parts.length ≥ 4 ∧ itemName.isSome then
              match (r.parts.drop 3).headD (.selection []) with
              | .min => (true, minMax0.2)
              | .max => (minMax0.1, true)
              | _ => minMax0
            else minMax0
          some { formulaName := formula, blockType := blockNormalized,
                 itemName := itemName, minOnly := minMax.1, maxOnly := minMax.2 }
        else none
      | _, _ => none
    else none
  | _ => none

/-- The item-name filter of `resolve_base_nutrient_reference` /
`resolve_base_ingredient_reference`: keep constraints whose expression is
a reference whose head identifier equals the item name. -/
def headMatches (itemName : String) (e : Expr) : Bool :=
  match e with
  | .reference r =>
    match r.parts.headD (.min) with
    | .ident name => name = itemName
    | _ => false
  | _ => false

/-- The `min`/`max` bound filter of the base-reference resolvers: drop
the other bound, then drop constraints left without bounds. -/
def filterBoundsNC (details : ReferenceDetails) (cs : List NutrientConstraint) :
    List NutrientConstraint :=
  if details.minOnly ∨ details.maxOnly then
    (cs.map (fun c =>
      let b1 := if details.minOnly then { c.bounds with max := none } else c.bounds
      let b2 := if details.maxOnly then { b1 with min := none } else b1
      { c with bounds := b2 })).filter
      (fun c => c.bounds.min.isSome || c.bounds.max.isSome)
  else cs

/-- `filterBoundsNC` for ingredient constraints. -/
def filterBoundsIC (details : ReferenceDetails) (cs : List IngredientConstraint) :
    List IngredientConstraint :=
  if details.minOnly ∨ details.maxOnly then
    (cs.map (fun c =>
      let b1 := if details.minOnly then { c.bounds with max := none } else c.bounds
      let b2 := if details.maxOnly then { b1 with min := none } else b1
      { c with bounds := b2 })).filter
      (fun c => c.bounds.min.isSome || c.bounds.max.isSome)
  else cs

/-- `resolve_nutrient_constraints`: expand base-formula references in
order (skipping inherited constraints whose key is already overridden),
record direct entries as overrides, then re-apply the overrides to every
resolved constraint that has a matching key and at least one bound.  The
local `resolveBase` is `resolve_base_nutrient_reference`; the recursion
into the base formula's own constraint list consumes one unit of fuel. -/
def resolveNutrientConstraints : ℕ → SymbolTable → List NutrientConstraint →
    Except CompileError (List NutrientConstraint)
  | 0, _, _ => .error (.circularReference "nutrients")
  | fuel + 1, st, constraints => do
    let resolveBase : ReferenceDetails → Except CompileError (List NutrientConstraint) :=
      fun details =>
        match lookupAL st.formulas details.formulaName with
        | none => .error (.unknownFormula details.formulaName)
        | some formula => do
          let sub ← resolveNutrientConstraints fuel st formula.nutrients
          let sub :=
            match details.itemName with
            | some itemName => sub.filter (fun c => headMatches itemName c.expr)
            | none => sub
          .ok (filterBoundsNC details sub)
    let r ← constraints.foldlM
      (fun (acc : List NutrientConstraint × List (String × NutrientConstraint)) nc =>
        match getBaseReference nc.expr with
        | some details => do
          let base ← resolveBase details
          .ok (acc.1 ++ base.filter
                (fun bc => !(containsAL acc.2 (constraintKey bc.expr))), acc.2)
        | none =>
          let key := constraintKey nc.expr
          .ok (acc.1 ++ [nc], insertAL acc.2 key nc))
      ([], [])
    .ok (r.1.map (fun c =>
      match lookupAL r.2 (constraintKey c.expr) with
      | some oc => if oc.bounds.min.isSome || oc.bounds.max.isSome then oc else c
      | none => c))

/-- `resolve_ingredient_constraints` (the symmetric twin, with
`resolve_base_ingredient_reference` as the local `resolveBase`). -/
def resolveIngredientConstraints : ℕ → SymbolTable → List IngredientConstraint →
    Except CompileError (List IngredientConstraint)
  | 0, _, _ => .error (.circularReference "ingredients")
  | fuel + 1, st, constraints => do
    let resolveBase : ReferenceDetails → Except CompileError (List IngredientConstraint) :=
      fun details =>
        match lookupAL st.formulas details.formulaName with
        | none => .error (.unknownFormula details.formulaName)
        | some formula => do
          let sub ← resolveIngredientConstraints fuel st formula.ingredients
          let sub :=
            match details.itemName with
            | some itemName => sub.filter (fun c => headMatches itemName c.expr)
            | none => sub
          .ok (filterBoundsIC details sub)
    let r ← constraints.foldlM
      (fun (acc : List IngredientConstraint × List (String × IngredientConstraint)) ic =>
        match getBaseReference ic.expr with
        | some details => do
          let base ← resolveBase details
          .ok (acc.1 ++ base.filter
                (fun bc => !(containsAL acc.2 (constraintKey bc.expr))), acc.2)
        | none =>
          let key := constraintKey ic.expr
          .ok (acc.1 ++ [ic], insertAL acc.2 key ic))
      ([], [])
    .ok (r.1.map (fun c =>
      match lookupAL r.2 (constraintKey c.expr) with
      | some oc => if oc.bounds.min.isSome || oc.bounds.max.isSome then oc else c
      | none => c))

/-- `collect_ingredients_from_expr`: append every reference head that
names a known ingredient; unknown names are skipped silently.  The Rust
signature is fallible but the function has no error path. -/
def collectIngredientsFromExpr (st : SymbolTable) :
    Expr → List String → Except CompileError (List String)
  | .num _, acc => .ok acc
  | .reference r, acc =>
    (match r.parts.headD (.min) with
     | .ident name =>
       if containsAL st.ingredients name then .ok (acc ++ [name]) else .ok acc
     | _ => .ok acc)
  | .binaryOp l _ r, acc => do
    let acc1 ← collectIngredientsFromExpr st l acc
    collectIngredientsFromExpr st r acc1
  | .paren inner, acc => collectIngredientsFromExpr st inner acc

/-- `expr_to_nutrient_name`. -/
def exprToNutrientName : Expr → Except CompileError String
  | .reference r =>
    if r.parts.length = 1 then
      match r.parts.headD (.min) with
      | .ident name => .ok name
      | _ => .ok (referenceToString r)
    else .ok (referenceToString r)
  | .binaryOp l op r => do
    let leftName ← exprToNutrientName l
    let rightName ← exprToNutrientName r
    .ok (leftName ++ "_" ++ op.debug ++ "_" ++ rightName)
  | _ => .error (.invalidReference "Expected nutrient reference")

/-- `expr_to_name` (uses the `Debug` rendering of the operator). -/
def exprToName : Expr → String
  | .reference r => referenceToString r
  | .binaryOp l op r => exprToName l ++ op.debug ++ exprToName r
  | .paren inner => exprToName inner
  | .num n => toString n

/-- The nutrient coefficient of one ingredient
(`.get(ing_name).and_then(|ing| ing.nutrients.get(&n)).copied().unwrap_or(0.0)`). -/
def nutrientCoeff (st : SymbolTable) (ingName nutrientName : String) : ℚ :=
  (((lookupAL st.ingredients ingName).bind
    (fun ing => lookupAL ing.nutrients nutrientName)).getD 0)

/-- `add_ratio_constraint`: linearise `num / den` bounds as
`Σ (a_num[i] − R·a_den[i])·xᵢ ≥ 0` (min) and `≤ 0` (max).  Note that the
percent flag of the bounds is not inspected here. -/
def addRatioConstraint (st : SymbolTable) (lp : LpProblem)
    (numerator denominator : Expr) (bounds : Bounds) (alias_ : Option String)
    (ingredients : List String) (_batchSize : ℚ) : Except CompileError LpProblem := do
  let numName ← exprToNutrientName numerator
  let denName ← exprToNutrientName denominator
  let baseName :=
    match alias_ with
    | some s => s
    | none => numName ++ "/" ++ denName
  let numCoeffs := ingredients.map (fun ing => nutrientCoeff st ing numName)
  let denCoeffs := ingredients.map (fun ing => nutrientCoeff st ing denName)
  let lp1 :=
    match bounds.min with
    | some minBound =>
      lp.addConstraint (baseName ++ "_min")
        (numCoeffs.zipWith (fun n d => n - minBound.value * d) denCoeffs) .ge 0
    | none => lp
  let lp2 :=
    match bounds.max with
    | some maxBound =>
      lp1.addConstraint (baseName ++ "_max")
        (numCoeffs.zipWith (fun n d => n - maxBound.value * d) denCoeffs) .le 0
    | none => lp1
  .ok lp2

/-- `add_nutrient_constraint`: ratio constraints are delegated to
`addRatioConstraint`; simple constraints reject percent bounds
(`PercentInNutrientConstraint`) and emit `Σ aᵢ·xᵢ ≥ t·B` / `≤ t·B`. -/
def addNutrientConstraint (st : SymbolTable) (lp : LpProblem)
    (constraint : NutrientConstraint) (ingredients : List String) (batchSize : ℚ) :
    Except CompileError LpProblem :=
  match constraint.expr with
  | .binaryOp left .div right =>
    addRatioConstraint st lp left right constraint.bounds constraint.alias_
      ingredients batchSize
  | _ => do
    let nutrientName ← exprToNutrientName constraint.expr
    let baseName :=
      match constraint.alias_ with
      | some s => s
      | none => nutrientName
    let coeffs := ingredients.map (fun ing => nutrientCoeff st ing nutrientName)
    let lp1 ←
      match constraint.bounds.min with
      | some minBound =>
        if minBound.isPercent then .error .percentInNutrientConstraint
        else .ok (lp.addConstraint (baseName ++ "_min") coeffs .ge
          (minBound.value * batchSize))
      | none => .ok lp
    match constraint.bounds.max with
    | some maxBound =>
      if maxBound.isPercent then .error .percentInNutrientConstraint
      else .ok (lp1.addConstraint (baseName ++ "_max") coeffs .le
        (maxBound.value * batchSize))
    | none => .ok lp1

/-- `expr_to_ingredient_coeffs`. -/
def exprToIngredientCoeffs (ingredients : List String) :
    Expr → Except CompileError (List ℚ)
  | .reference r =>
    (match r.parts.headD (.min) with
     | .ident name =>
       (match ingredients.findIdx? (fun x => x = name) with
        | some idx => .ok (setAt (List.replicate ingredients.length (0 : ℚ)) idx 1)
        | none => .ok (List.replicate ingredients.length 0))
     | _ => .ok (List.replicate ingredients.length 0))
  | .binaryOp l op r =>
    (match op with
     | .add => do
       let lc ← exprToIngredientCoeffs ingredients l
       let rc ← exprToIngredientCoeffs ingredients r
       .ok (lc.zipWith (fun a b => a + b) rc)
     | .sub => do
       let lc ← exprToIngredientCoeffs ingredients l
       let rc ← exprToIngredientCoeffs ingredients r
       .ok (lc.zipWith (fun a b => a - b) rc)
     | .mul =>
       match l with
       | .num n => do
         let rc ← exprToIngredientCoeffs ingredients r
         .ok (rc.map (fun x => n * x))
       | _ =>
         match r with
         | .num n => do
           let lc ← exprToIngredientCoeffs ingredients l
           .ok (lc.map (fun x => x * n))
         | _ =>
           .error (.invalidReference "Multiplication requires one operand to be a number")
     | .div =>
       match r with
       | .num n =>
         if n = 0 then .error .divisionByZero
         else do
           let lc ← exprToIngredientCoeffs ingredients l
           .ok (lc.map (fun x => x / n))
       | _ => .error (.invalidReference "Division must be by a constant number"))
  | .paren inner => exprToIngredientCoeffs ingredients inner
  | .num _ => .ok (List.replicate ingredients.length 0)

/-- `add_ingredient_constraint`: percent bounds scale the RHS by
`batch / 100`. -/
def addIngredientConstraint (_st : SymbolTable) (lp : LpProblem)
    (constraint : IngredientConstraint) (ingredients : List String) (batchSize : ℚ) :
    Except CompileError LpProblem := do
  let coeffs ← exprToIngredientCoeffs ingredients constraint.expr
  let baseName :=
    match constraint.alias_ with
    | some s => s
    | none => exprToName constraint.expr
  let lp1 :=
    match constraint.bounds.min with
    | some minBound =>
      let rhs := if minBound.isPercent then minBound.value * batchSize / 100
                 else minBound.value
      lp.addConstraint (baseName ++ "_min") coeffs .ge rhs
    | none => lp
  let lp2 :=
    match constraint.bounds.max with
    | some maxBound =>
      let rhs := if maxBound.isPercent then maxBound.value * batchSize / 100
                 else maxBound.value
      lp1.addConstraint (baseName ++ "_max") coeffs .le rhs
    | none => lp1
  .ok lp2

/-- The first-occurrence deduplication of the collected ingredient list
(`ingredient_names.retain(|x| seen.insert(x.clone()))`). -/
def dedupFirst : List String → List String → List String
  | _, [] => []
  | seen, x :: xs =>
    if seen.contains x then dedupFirst seen xs
    else x :: dedupFirst (x :: seen) xs

/-- `Compiler::compile_formula`. -/
def compileFormula (fuel : ℕ) (st : SymbolTable) (name : String) :
    Except CompileError CompiledFormula := do
  let formula ←
    match lookupAL st.formulas name with
    | some f => Except.ok f
    | none => Except.error (.unknownFormula name)
  if formula.isTemplate ∨ (getBoolProperty formula.properties "template").getD false then
    .error (.cannotSolveTemplate name)
  else do
    let bs1 ← resolveNumberProperty fuel st formula.properties "batch_size"
    let bs2 ← resolveNumberProperty fuel st formula.properties "batch"
    let batchSize ←
      match bs1.or bs2 with
      | some b => Except.ok b
      | none => Except.error (.missingBatchSize name)
    let resolvedNutrients ← resolveNutrientConstraints fuel st formula.nutrients
    let resolvedIngredients ← resolveIngredientConstraints fuel st formula.ingredients
    let collected ← resolvedIngredients.foldlM
      (fun acc ic => collectIngredientsFromExpr st ic.expr acc) []
    let ingredientNames := dedupFirst [] collected
    let lp0 := LpProblem.new ingredientNames
    let ingredientCosts := ingredientNames.map
      (fun n => ((lookupAL st.ingredients n).map (·.cost)).getD 0)
    let ingredientNutrients := ingredientNames.map
      (fun n => ((lookupAL st.ingredients n).map (·.nutrients)).getD [])
    let nutrientNames := dedupFirst []
      (ingredientNutrients.map (fun l => l.map (·.1))).flatten
    let nutrientUnits := nutrientNames.map
      (fun n => (lookupAL st.nutrients n).bind (·.unit))
    let lp1 := lp0.setObjective ingredientCosts true
    let lp2 ← resolvedNutrients.foldlM
      (fun lp nc => addNutrientConstraint st lp nc ingredientNames batchSize) lp1
    let lp3 ← resolvedIngredients.foldlM
      (fun lp ic => addIngredientConstraint st lp ic ingredientNames batchSize) lp2
    let lp4 := lp3.addConstraint "batch_size"
      (List.replicate ingredientNames.length 1) .eq batchSize
    let lp5 := (ingredientNames.enum).foldl
      (fun lp iv =>
        lp.addConstraint (iv.2 ++ "_nonneg")
          (setAt (List.replicate ingredientNames.length (0 : ℚ)) iv.1 1) .ge 0)
      lp4
    .ok { name := formula.name
          displayName := getStringProperty formula.properties "name"
          code := getStringProperty formula.properties "code"
          description := getStringProperty formula.properties "description"
          batchSize := batchSize
          ingredients := ingredientNames
          ingredientCosts := ingredientCosts
          ingredientNutrients := ingredientNutrients
          nutrientNames := nutrientNames
          nutrientUnits := nutrientUnits
          lpProblem := lp5 }

/-! ## Derived checkers and concrete inputs used by the claims -/

/-- Whether a result is a success (used to state that a compilation does
*not* fail). -/
def exceptIsOk {ε α : Type} : Except ε α → Bool
  | .ok _ => true
  | .error _ => false

/-- Whether a compile result is specifically an `UnknownIngredient`
error. -/
def isUnknownIngredientErr {α : Type} : Except CompileError α → Bool
  | .error (.unknownIngredient _) => true
  | _ => false

/-- The variable list of a compiled formula's LP (empty on error). -/
def compiledVars : Except CompileError CompiledFormula → List String
  | .ok cf => cf.lpProblem.vars
  | .error _ => []

/-- The constraints of a compiled formula's LP bearing a given name. -/
def constraintsNamed (res : Except CompileError CompiledFormula) (nm : String) :
    List Constraint :=
  match res with
  | .ok cf => cf.lpProblem.constraints.filter (fun c => c.name == nm)
  | .error _ => []

/-- Whether an expression is a ratio (`num / den`) constraint expression,
the shape `add_nutrient_constraint` hands to `add_ratio_constraint`. -/
def isDivExpr : Expr → Bool
  | .binaryOp _ .div _ => true
  | _ => false

/-- Whether a `Bounds` carries a percent-marked bound. -/
def hasPercentBound (b : Bounds) : Bool :=
  (match b.min with | some m => m.isPercent | none => false) ||
  (match b.max with | some m => m.isPercent | none => false)

/-- The empty span used for hand-built ASTs. -/
def sp0 : Span := ⟨0, 0⟩

/-- A bare single-identifier reference expression. -/
def identExpr (n : String) : Expr := .reference ⟨sp0, [.ident n]⟩

/-- C1's failing input: minimise `0` subject to `-x ≤ -2`.  The tableau
construction flips the row to `x ≥ 2` but installs the flipped slack
(coefficient `-1`) as the initial basic variable, so phase 2 sees an
already-"optimal" tableau and the solver returns `Optimal` with `x = 0`. -/
def c1prob : LpProblem :=
  ((LpProblem.new ["x"]).setObjective [0] true).addConstraint "neg" [-1] .le (-2)

/-- C3's LP (the solver's own `test_infeasible`): minimise `x` subject to
`x ≥ 5` (named `lower`) and `x ≤ 3` (named `upper`). -/
def c3prob : LpProblem :=
  LpProblem.addConstraint
    (((LpProblem.new ["x"]).setObjective [1] true).addConstraint "lower" [1] .ge 5)
    "upper" [1] .le 3

/-- C7's input: two independent direct conflicts (`x = 5 ∧ x ≤ 3` and
`y = 5 ∧ y ≤ 3`), which drive the solver into `analyze_conflicts` with
two sign-pattern groups. -/
def c7prob : LpProblem :=
  let p0 := (LpProblem.new ["x", "y"]).setObjective [1, 1] true
  let p1 := p0.addConstraint "xeq" [1, 0] .eq 5
  let p2 := p1.addConstraint "xle" [1, 0] .le 3
  let p3 := p2.addConstraint "yeq" [0, 1] .eq 5
  p3.addConstraint "yle" [0, 1] .le 3

/-- The ingredient used by the compiler claims: cost 100, protein 8. -/
def c2corn : CompiledIngredient :=
  { name := "corn", displayName := none, code := none, isTemplate := false,
    cost := 100, nutrients := [("protein", 8)] }

/-- C2's base formula `A`: a single nutrient constraint
`protein min a [max …]`. -/
def c2base (a : ℚ) (maxA : Option BoundValue) : Formula :=
  { span := sp0, name := "A", isTemplate := false, properties := []
    nutrients := [{ span := sp0, expr := identExpr "protein",
                    bounds := { min := some { value := a, isPercent := false },
                                max := maxA }, alias_ := none }]
    ingredients := [] }

/-- C2's derived formula `B`: nutrient block `A.nutrients` followed by
the direct entry `protein min v`, one ingredient `corn`, batch `batch`. -/
def c2derived (v batch : ℚ) : Formula :=
  { span := sp0, name := "B", isTemplate := false
    properties := [{ span := sp0, name := "batch_size", value := .number batch }]
    nutrients :=
      [{ span := sp0, expr := .reference ⟨sp0, [.ident "A", .ident "nutrients"]⟩,
         bounds := { min := none, max := none }, alias_ := none },
       { span := sp0, expr := identExpr "protein",
         bounds := { min := some { value := v, isPercent := false }, max := none },
         alias_ := none }]
    ingredients := [{ span := sp0, expr := identExpr "corn",
                      bounds := { min := none, max := none }, alias_ := none }] }

/-- C2's symbol table. -/
def c2table (a : ℚ) (maxA : Option BoundValue) (v batch : ℚ) : SymbolTable :=
  { nutrients := [], ingredients := [("corn", c2corn)]
    formulas := [("A", c2base a maxA), ("B", c2derived v batch)] }

/-- C5's ingredient: calcium 2, phosphorus 1. -/
def c5ca : CompiledIngredient :=
  { name := "ca", displayName := none, code := none, isTemplate := false,
    cost := 10, nutrients := [("calcium", 2), ("phosphorus", 1)] }

/-- C5's formula with a ratio nutrient constraint whose min bound is
percent-marked: `calcium / phosphorus min 1.5%`. -/
def c5ratioFormula : Formula :=
  { span := sp0, name := "r", isTemplate := false
    properties := [{ span := sp0, name := "batch_size", value := .number 100 }]
    nutrients :=
      [{ span := sp0,
         expr := .binaryOp (identExpr "calcium") .div (identExpr "phosphorus"),
         bounds := { min := some { value := 3 / 2, isPercent := true }, max := none },
         alias_ := none }]
    ingredients := [{ span := sp0, expr := identExpr "ca",
                      bounds := { min := none, max := none }, alias_ := none }] }

/-- C5's symbol table. -/
def c5table : SymbolTable :=
  { nutrients := [], ingredients := [("ca", c5ca)], formulas := [("r", c5ratioFormula)] }

/-- C10's formula: the ingredients block references `corn` (known) and
`ghost` (absent from the ingredient table). -/
def c10formula : Formula :=
  { span := sp0, name := "g", isTemplate := false
    properties := [{ span := sp0, name := "batch_size", value := .number 100 }]
    nutrients := []
    ingredients :=
      [{ span := sp0, expr := identExpr "corn",
         bounds := { min := none, max := none }, alias_ := none },
       { span := sp0, expr := identExpr "ghost",
         bounds := { min := some { value := 1, isPercent := false }, max := none },
         alias_ := none }] }

/-- C10's symbol table (no `ghost` ingredient). -/
def c10table : SymbolTable :=
  { nutrients := [], ingredients := [("corn", c2corn)], formulas := [("g", c10formula)] }

/-- C6's witness source: a program the strict parser accepts. -/
def c6src : String := "nutrient p \x7b\x7d"

/-- The AST of `c6src`. -/
def c6prog : Program :=
  { items := [.nutrient { span := ⟨0, 13⟩, name := "p", properties := [] }] }

/-- The LP well-formedness invariant of spec.md §3: every constraint's
coefficient vector, and the objective's, has length `variables.len()`
(the Rust solver indexes under this assumption). -/
def WellFormed (p : LpProblem) : Prop :=
  p.objective.coefficients.length = p.vars.length ∧
  ∀ c ∈ p.constraints, c.coefficients.length = p.vars.length

/-! ## Claims -/

/-- C1: the claim states that whenever `Solver::solve` returns status
`Optimal`, the returned values satisfy every constraint within the
tolerance.  The code violates this: on `minimise 0 subject to -x ≤ -2`
(`c1prob`), `build_tableau` flips the negative-RHS row but installs the
flipped slack column (coefficient `-1`) as the row's basic variable, so
the initial basis is not feasible, phase 2 finds nothing to pivot, and
`solve` returns `Optimal` with `x = 0` and an empty violations list —
while the solver's own violation checker (`find_violations`) reports the
constraint violated by `2`, far beyond `ε = 1e-9`. -/
theorem c1_optimal_yet_constraint_violated :
    (solve Solver.new [] c1prob).status = .optimal ∧
    (solve Solver.new [] c1prob).values = [0] ∧
    (solve Solver.new [] c1prob).violations = [] ∧
    findViolations Solver.new c1prob (solve Solver.new [] c1prob).values =
      [{ constraint := "neg", required := -2, actual := 0, violationAmount := 2,
         description := .exceedsMax "neg" (-2) 2 }] := by
  with_unfolding_all decide

/-- C2 (counterexample): with `A` constraining `protein min 18 max 24`
and `B`'s nutrient block being `A.nutrients` followed by
`protein min 20` (batch 100), the compiled LP for `B` contains *two*
constraints named `protein_min` — not exactly one as the claim states —
both with operator `≥` and RHS `20·100`. -/
theorem c2_counterexample :
    constraintsNamed
      (compileFormula 4 (c2table 18 (some { value := 24, isPercent := false }) 20 100) "B")
      "protein_min" =
    [{ name := "protein_min", coefficients := [8], op := .ge, rhs := 2000 },
     { name := "protein_min", coefficients := [8], op := .ge, rhs := 2000 }] := by
  with_unfolding_all decide

/-- C2 (amended): for every min bound `a` (and optional max bound) in
`A`, every direct min `v` and batch `batch` in `B`, the compiled LP for
`B` contains exactly *two* constraints named `protein_min`, both with
operator `≥` and RHS `v·batch`: the override re-application replaces the
inherited copy with the direct entry, which was also emitted itself. -/
theorem c2_override_emits_two_min_rows (a v batch : ℚ) (maxA : Option BoundValue) :
    constraintsNamed (compileFormula 4 (c2table a maxA v batch) "B") "protein_min" =
    [{ name := "protein_min", coefficients := [8], op := .ge, rhs := v * batch },
     { name := "protein_min", coefficients := [8], op := .ge, rhs := v * batch }] := by
  with_unfolding_all rfl

/-- C3 (counterexample): on the LP `minimise x` with `lower : x ≥ 5` and
`upper : x ≤ 3`, the status is `Infeasible` but the violations list does
*not* name both constraints: the relaxed solution `x = 0` satisfies
`upper`, so only `lower` is reported. -/
theorem c3_counterexample :
    (solve Solver.new [] c3prob).status = .infeasible ∧
    ((solve Solver.new [] c3prob).violations.map (·.constraint)).contains "upper"
      = false := by
  with_unfolding_all decide

/-- C3 (amended): on the LP `minimise x` with `lower : x ≥ 5` and
`upper : x ≤ 3`, `solve` returns status `Infeasible` with the relaxed
solution `x = 0`, and the violations list names exactly the violated
lower-bound constraint `lower` (below its minimum by 5); the satisfied
`upper` constraint is not listed. -/
theorem c3_infeasible_reports_lower :
    (solve Solver.new [] c3prob).status = .infeasible ∧
    (solve Solver.new [] c3prob).values = [0] ∧
    (solve Solver.new [] c3prob).violations =
      [{ constraint := "lower", required := 5, actual := 0, violationAmount := 5,
         description := .belowMin "lower" 5 5 }] := by
  with_unfolding_all decide

/-- C5 (counterexample): a formula whose nutrient block holds the ratio
constraint `calcium / phosphorus min 1.5` with the min bound
percent-marked compiles successfully — `add_ratio_constraint` never
inspects `is_percent` — and the emitted row uses `1.5` as a plain ratio
(`2 − 1.5·1 = 1/2` for the single ingredient). -/
theorem c5_counterexample :
    exceptIsOk (compileFormula 4 c5table "r") = true ∧
    constraintsNamed (compileFormula 4 c5table "r") "calcium/phosphorus_min" =
      [{ name := "calcium/phosphorus_min", coefficients := [1 / 2], op := .ge,
         rhs := 0 }] := by
  with_unfolding_all decide

/-- C7 (counterexample): on `c7prob` (two independent `=`/`≤` conflicts)
the solver reaches `analyze_conflicts`, whose output order follows the
hash-map iteration order: two iteration orders of the two sign-pattern
groups produce violation lists in different orders, hence different
`Solution` values — identical input, non-identical output. -/
theorem c7_counterexample :
    (solve Solver.new [[1, 0], [0, 1]] c7prob).violations.map (·.constraint) =
      ["xeq vs xle", "yeq vs yle"] ∧
    (solve Solver.new [[0, 1], [1, 0]] c7prob).violations.map (·.constraint) =
      ["yeq vs yle", "xeq vs xle"] ∧
    solve Solver.new [[1, 0], [0, 1]] c7prob ≠
      solve Solver.new [[0, 1], [1, 0]] c7prob := by
  with_unfolding_all decide

/-- C8 (counterexample): on the one-byte source `" "`, `tokenize`
returns only the EOF token with span `[1,1)`; byte `0` — a whitespace
byte of the input, not inside any comment — lies within no token's span,
so the spans do not cover `[0, len(source)]`. -/
theorem c8_counterexample :
    tokenize [' '] = [{ kind := .eof, span := ⟨1, 1⟩, text := "" }] ∧
    spanCovers (tokenize [' ']) 0 = false := by
  with_unfolding_all decide

/-- Zipping two maps over the same list is the map of the pointwise
combination (used to read off the coefficients of a ratio row). -/
theorem zipWith_map_same {α β : Type} (f : β → β → β) (g h : α → β) :
    ∀ l : List α, List.zipWith f (l.map g) (l.map h) = l.map (fun x => f (g x) (h x))
  | [] => rfl
  | _ :: xs => by simp [zipWith_map_same f g h xs]

/-- C4: for a ratio nutrient constraint `num / den` (both single
nutrient references), `add_nutrient_constraint` delegates to
`add_ratio_constraint`, which appends — for a min bound `R` — a row whose
coefficient for variable `i` is exactly `a_num[i] − R·a_den[i]` with
operator `≥` and RHS `0`, and — for a max bound `R` — the analogous row
with operator `≤` and RHS `0` (`a_N[i]` being ingredient `i`'s stored
value for nutrient `N`, `0` if absent). -/
theorem c4_ratio_linearization (st : SymbolTable) (lp : LpProblem)
    (ing : List String) (batch : ℚ) (sp spn spd : Span) (alias_ : Option String)
    (numName denName : String) (minB maxB : Option BoundValue) :
    addNutrientConstraint st lp
      { span := sp
        expr := .binaryOp (.reference ⟨spn, [.ident numName]⟩) .div
          (.reference ⟨spd, [.ident denName]⟩)
        bounds := { min := minB, max := maxB }, alias_ := alias_ } ing batch =
    .ok { lp with constraints := lp.constraints ++
      (match minB with
       | some b =>
         [{ name := (match alias_ with
                     | some s => s
                     | none => numName ++ "/" ++ denName) ++ "_min"
            coefficients := ing.map (fun i =>
              nutrientCoeff st i numName - b.value * nutrientCoeff st i denName)
            op := .ge, rhs := 0 }]
       | none => []) ++
      (match maxB with
       | some b =>
         [{ name := (match alias_ with
                     | some s => s
                     | none => numName ++ "/" ++ denName) ++ "_max"
            coefficients := ing.map (fun i =>
              nutrientCoeff st i numName - b.value * nutrientCoeff st i denName)
            op := .le, rhs := 0 }]
       | none => []) } := by
  cases minB <;> cases maxB <;>
    simp [addNutrientConstraint, addRatioConstraint, exprToNutrientName,
      LpProblem.addConstraint, zipWith_map_same, Except.bind, bind]

/-- C4 (witness): the theorem applied at a concrete input — the
`calcium / phosphorus min 1.5 max 2` constraint over the single
ingredient `ca` (calcium 2, phosphorus 1) yields the rows
`[2 − 1.5·1] ≥ 0` and `[2 − 2·1] ≤ 0`. -/
theorem c4_ratio_linearization_witness :
    addNutrientConstraint c5table (LpProblem.new ["ca"])
      { span := sp0
        expr := .binaryOp (.reference ⟨sp0, [.ident "calcium"]⟩) .div
          (.reference ⟨sp0, [.ident "phosphorus"]⟩)
        bounds := { min := some { value := 3 / 2, isPercent := false },
                    max := some { value := 2, isPercent := false } }
        alias_ := none } ["ca"] 100 =
    .ok { (LpProblem.new ["ca"]) with constraints :=
      [{ name := "calcium/phosphorus_min"
         coefficients := ["ca"].map (fun i =>
           nutrientCoeff c5table i "calcium" - (3 / 2) * nutrientCoeff c5table i "phosphorus")
         op := .ge, rhs := 0 },
       { name := "calcium/phosphorus_max"
         coefficients := ["ca"].map (fun i =>
           nutrientCoeff c5table i "calcium" - 2 * nutrientCoeff c5table i "phosphorus")
         op := .le, rhs := 0 }] } :=
  c4_ratio_linearization c5table (LpProblem.new ["ca"]) ["ca"] 100 sp0 sp0 sp0
    none "calcium" "phosphorus"
    (some { value := 3 / 2, isPercent := false })
    (some { value := 2, isPercent := false })

/-- C5 (amended): a *non-ratio* nutrient constraint (its expression is
not a division, and `expr_to_nutrient_name` accepts it) whose min or max
bound is percent-marked makes `add_nutrient_constraint` — and hence
`compile_formula` when it reaches that constraint — fail with
`PercentInNutrientConstraint`.  Ratio constraints are exempt: their
percent flags are ignored (see the counterexample `c5_counterexample`). -/
theorem c5_percent_rejected_for_nonratio (st : SymbolTable) (lp : LpProblem)
    (ing : List String) (batch : ℚ) (c : NutrientConstraint) (nm : String)
    (hd : isDivExpr c.expr = false)
    (hn : exprToNutrientName c.expr = .ok nm)
    (hp : hasPercentBound c.bounds = true) :
    addNutrientConstraint st lp c ing batch = .error .percentInNutrientConstraint := by
  obtain ⟨sp, e, ⟨mn, mx⟩, al⟩ := c
  simp only [hasPercentBound] at hp
  unfold addNutrientConstraint
  split
  next l r heq =>
    have he : e = Expr.binaryOp l BinaryOp.div r := heq
    subst he
    simp [isDivExpr] at hd
  next =>
    simp only [hn, Except.bind, bind]
    cases mn with
    | some mb =>
      cases hmb : mb.isPercent with
      | true => simp [hmb]
      | false =>
        simp only [hmb, Bool.false_or] at hp
        cases mx with
        | some xb =>
          simp only at hp
          simp [hmb, hp]
        | none => simp at hp
    | none =>
      simp only [Bool.false_or] at hp
      cases mx with
      | some xb =>
        simp only at hp
        simp [hp]
      | none => simp at hp

/-- The conflict-analysis fallback always reports status `Infeasible`
with empty values and an infinite objective, whatever the hash order. -/
theorem analyzeConflicts_fields (s : Solver) (o : List (List ℤ)) (p : LpProblem) :
    (analyzeConflicts s o p).status = .infeasible ∧
    (analyzeConflicts s o p).values = [] ∧
    (analyzeConflicts s o p).objectiveValue = .pinf :=
  ⟨rfl, rfl, rfl⟩

/-- The status, values and objective of `solve_with_relaxation` do not
depend on the hash-map iteration order. -/
theorem solveWithRelaxation_order_irrelevant (s : Solver) (o1 o2 : List (List ℤ))
    (p : LpProblem) :
    (solveWithRelaxation s o1 p).status = (solveWithRelaxation s o2 p).status ∧
    (solveWithRelaxation s o1 p).values = (solveWithRelaxation s o2 p).values ∧
    (solveWithRelaxation s o1 p).objectiveValue =
      (solveWithRelaxation s o2 p).objectiveValue := by
  unfold solveWithRelaxation
  dsimp only
  split_ifs with h1 h2
  · exact ⟨rfl, rfl, rfl⟩
  · exact ⟨rfl, rfl, rfl⟩
  · exact ⟨rfl, rfl, rfl⟩

/-- C5 (witness): the amended theorem at a concrete input — the plain
constraint `calcium min 20%` fails with `PercentInNutrientConstraint`. -/
theorem c5_percent_rejected_witness :
    addNutrientConstraint c5table (LpProblem.new ["ca"])
      { span := sp0, expr := identExpr "calcium"
        bounds := { min := some { value := 20, isPercent := true }, max := none }
        alias_ := none } ["ca"] 100 = .error .percentInNutrientConstraint :=
  c5_percent_rejected_for_nonratio c5table (LpProblem.new ["ca"]) ["ca"] 100 _
    "calcium" (by with_unfolding_all rfl) (by with_unfolding_all rfl)
    (by with_unfolding_all rfl)

/-- C7 (amended): two invocations of `solve` on identical input agree on
status, variable values and objective value whatever the hash-map
iteration orders; the full `Solution` (specifically the order of the
violations list from the conflict-analysis path) is the only part that
may differ between runs (see `c7_counterexample`). -/
theorem c7_solve_deterministic_fields (s : Solver) (o1 o2 : List (List ℤ))
    (p : LpProblem) :
    (solve s o1 p).status = (solve s o2 p).status ∧
    (solve s o1 p).values = (solve s o2 p).values ∧
    (solve s o1 p).objectiveValue = (solve s o2 p).objectiveValue := by
  unfold solve
  cases hb : buildTableau p with
  | error u => exact solveWithRelaxation_order_irrelevant s o1 o2 p
  | ok t =>
    dsimp only
    generalize (if t.hasArtificial then phase1 s t else (true, t)) = rr
    split_ifs with h1
    · exact solveWithRelaxation_order_irrelevant s o1 o2 p
    · generalize phase2 s rr.2 = pr
      rcases pr with ⟨t2, res⟩
      cases res with
      | optimal => exact ⟨rfl, rfl, rfl⟩
      | unbounded => exact ⟨rfl, rfl, rfl⟩
      | infeasible => exact solveWithRelaxation_order_irrelevant s o1 o2 p

/-- `solve_relaxed` only ever reports `Optimal`, `Infeasible` or
`Unbounded`. -/
theorem solveRelaxed_status (s : Solver) (p : LpProblem) :
    (solveRelaxed s p).status = .optimal ∨ (solveRelaxed s p).status = .infeasible ∨
    (solveRelaxed s p).status = .unbounded := by
  unfold solveRelaxed
  cases hb : buildTableau p with
  | error u => exact Or.inr (Or.inl rfl)
  | ok t =>
    dsimp only
    generalize (if t.hasArtificial then phase1 s t else (true, t)) = rr
    split_ifs with h1
    · exact Or.inr (Or.inl rfl)
    · generalize phase2 s rr.2 = pr
      rcases pr with ⟨t2, res⟩
      cases res with
      | optimal => exact Or.inl rfl
      | unbounded => exact Or.inr (Or.inr rfl)
      | infeasible => exact Or.inr (Or.inl rfl)

/-- `solve_with_relaxation` only ever reports `Optimal` or `Infeasible`. -/
theorem solveWithRelaxation_status (s : Solver) (o : List (List ℤ)) (p : LpProblem) :
    (solveWithRelaxation s o p).status = .optimal ∨
    (solveWithRelaxation s o p).status = .infeasible := by
  unfold solveWithRelaxation
  dsimp only
  split_ifs with h1 h2
  · exact Or.inr rfl
  · exact Or.inl (not_ne_iff.mp h1)
  · exact Or.inr rfl

/-- C9: for every LP input (well-formed in the sense of spec.md §3, the
domain on which the Rust solver does not panic on indexing), every hash
order and every solver configuration, `Solver::solve` returns a
`Solution` whose status is `Optimal`, `Infeasible` or `Unbounded`; the
`SolutionStatus::Error` variant is never produced. -/
theorem c9_solve_never_errors (s : Solver) (o : List (List ℤ)) (p : LpProblem)
    (_hw : WellFormed p) :
    (solve s o p).status = .optimal ∨ (solve s o p).status = .infeasible ∨
    (solve s o p).status = .unbounded := by
  unfold solve
  cases hb : buildTableau p with
  | error u =>
    rcases solveWithRelaxation_status s o p with h | h
    · exact Or.inl h
    · exact Or.inr (Or.inl h)
  | ok t =>
    dsimp only
    generalize (if t.hasArtificial then phase1 s t else (true, t)) = rr
    split_ifs with h1
    · rcases solveWithRelaxation_status s o p with h | h
      · exact Or.inl h
      · exact Or.inr (Or.inl h)
    · generalize phase2 s rr.2 = pr
      rcases pr with ⟨t2, res⟩
      cases res with
      | optimal => exact Or.inl rfl
      | unbounded => exact Or.inr (Or.inr rfl)
      | infeasible =>
        rcases solveWithRelaxation_status s o p with h | h
        · exact Or.inl h
        · exact Or.inr (Or.inl h)

/-- C9 (witness): the theorem at a concrete input (the empty LP, which
is well-formed), discharging the well-formedness hypothesis. -/
theorem c9_solve_never_errors_witness :
    (solve Solver.new [] (LpProblem.new [])).status = .optimal ∨
    (solve Solver.new [] (LpProblem.new [])).status = .infeasible ∨
    (solve Solver.new [] (LpProblem.new [])).status = .unbounded :=
  c9_solve_never_errors Solver.new [] (LpProblem.new [])
    ⟨rfl, fun c hc => absurd hc (List.not_mem_nil c)⟩

/-! ### C10: `compile_formula` never produces `UnknownIngredient`

The lemmas below track, through every function `compile_formula` calls,
that no error path constructs the `UnknownIngredient` variant. -/

/-- `UnknownIngredient`-freeness propagates through `bind`. -/
theorem isUI_bind {α β : Type} {x : Except CompileError α}
    {f : α → Except CompileError β}
    (hx : isUnknownIngredientErr x = false)
    (hf : ∀ a, isUnknownIngredientErr (f a) = false) :
    isUnknownIngredientErr (x >>= f) = false := by
  cases x with
  | ok a => simpa [Bind.bind, Except.bind] using hf a
  | error e =>
    cases e <;> simp_all [Bind.bind, Except.bind, isUnknownIngredientErr]

/-- `UnknownIngredient`-freeness propagates through `Except.map`. -/
theorem isUI_map {α β : Type} {x : Except CompileError α} {g : α → β}
    (hx : isUnknownIngredientErr x = false) :
    isUnknownIngredientErr (x.map g) = false := by
  cases x with
  | ok a => rfl
  | error e =>
    cases e <;> simp_all [Except.map, isUnknownIngredientErr]

/-- `UnknownIngredient`-freeness propagates through `List.foldlM`. -/
theorem isUI_foldlM {α β : Type} (f : β → α → Except CompileError β)
    (hf : ∀ b a, isUnknownIngredientErr (f b a) = false) :
    ∀ (l : List α) (b : β), isUnknownIngredientErr (l.foldlM f b) = false
  | [], _ => rfl
  | a :: l, b => by
    rw [List.foldlM_cons]
    exact isUI_bind (hf b a) (fun b' => isUI_foldlM f hf l b')

/-- `evaluate_property_expr` never produces `UnknownIngredient` when its
reference resolver does not. -/
theorem isUI_evalExprWith (f : Reference → Except CompileError ℚ)
    (hf : ∀ r, isUnknownIngredientErr (f r) = false) :
    ∀ e, isUnknownIngredientErr (evalExprWith f e) = false
  | .num _ => rfl
  | .reference r => hf r
  | .binaryOp l op r => by
    simp only [evalExprWith]
    apply isUI_bind (isUI_evalExprWith f hf l)
    intro lv
    apply isUI_bind (isUI_evalExprWith f hf r)
    intro rv
    split
    · rfl
    · rfl
    · rfl
    · split <;> rfl
  | .paren inner => isUI_evalExprWith f hf inner

/-- The property lookup never produces `UnknownIngredient` when its
reference resolver does not. -/
theorem isUI_resolveNumberPropertyWith (f : Reference → Except CompileError ℚ)
    (hf : ∀ r, isUnknownIngredientErr (f r) = false)
    (props : List Property) (nm : String) :
    isUnknownIngredientErr (resolveNumberPropertyWith f props nm) = false := by
  unfold resolveNumberPropertyWith
  cases props.find? (fun p => propertyMatches p.name nm) with
  | none => rfl
  | some p =>
    obtain ⟨psp, pname, pval⟩ := p
    cases pval with
    | number n => rfl
    | string s => rfl
    | ident s => rfl
    | expr e => exact isUI_map (isUI_evalExprWith f hf e)

/-- `resolve_property_reference` never produces `UnknownIngredient`. -/
theorem isUI_resolvePropertyReference :
    ∀ (fuel : ℕ) (st : SymbolTable) (r : Reference),
      isUnknownIngredientErr (resolvePropertyReference fuel st r) = false := by
  intro fuel
  induction fuel with
  | zero => intro st r; rfl
  | succ f ih =>
    intro st r
    unfold resolvePropertyReference
    split
    · rfl
    · split
      · split
        · split <;> rfl
        · split
          · split
            · apply isUI_bind (isUI_resolveNumberPropertyWith _ (ih st) _ _)
              intro a
              apply isUI_bind (isUI_resolveNumberPropertyWith _ (ih st) _ _)
              intro b
              split <;> rfl
            · rfl
          · rfl
      · rfl
      · rfl

/-- `resolve_number_property` never produces `UnknownIngredient`. -/
theorem isUI_resolveNumberProperty (fuel : ℕ) (st : SymbolTable)
    (props : List Property) (nm : String) :
    isUnknownIngredientErr (resolveNumberProperty fuel st props nm) = false :=
  isUI_resolveNumberPropertyWith _ (isUI_resolvePropertyReference fuel st) props nm

/-- `expr_to_nutrient_name` never produces `UnknownIngredient` (its only
error is `InvalidReference`). -/
theorem isUI_exprToNutrientName :
    ∀ e, isUnknownIngredientErr (exprToNutrientName e) = false
  | .num _ => rfl
  | .paren _ => rfl
  | .reference r => by
    unfold exprToNutrientName
    split
    · split <;> rfl
    · rfl
  | .binaryOp l op r => by
    simp only [exprToNutrientName]
    apply isUI_bind (isUI_exprToNutrientName l)
    intro a
    apply isUI_bind (isUI_exprToNutrientName r)
    intro b
    rfl

/-- `add_ratio_constraint` never produces `UnknownIngredient`. -/
theorem isUI_addRatioConstraint (st : SymbolTable) (lp : LpProblem)
    (num den : Expr) (bounds : Bounds) (al : Option String)
    (ing : List String) (batch : ℚ) :
    isUnknownIngredientErr (addRatioConstraint st lp num den bounds al ing batch)
      = false := by
  unfold addRatioConstraint
  apply isUI_bind (isUI_exprToNutrientName num)
  intro a
  apply isUI_bind (isUI_exprToNutrientName den)
  intro b
  rfl

/-- `add_nutrient_constraint` never produces `UnknownIngredient`. -/
theorem isUI_addNutrientConstraint (st : SymbolTable) (lp : LpProblem)
    (c : NutrientConstraint) (ing : List String) (batch : ℚ) :
    isUnknownIngredientErr (addNutrientConstraint st lp c ing batch) = false := by
  unfold addNutrientConstraint
  split
  · exact isUI_addRatioConstraint ..
  · apply isUI_bind (isUI_exprToNutrientName _)
    intro nm
    dsimp only
    split <;> first
      | rfl
      | (split <;> first
          | rfl
          | (split <;> first
              | rfl
              | (split <;> first
                  | rfl
                  | (split <;> rfl))))

/-- `expr_to_ingredient_coeffs` never produces `UnknownIngredient`. -/
theorem isUI_exprToIngredientCoeffs (ing : List String) :
    ∀ e, isUnknownIngredientErr (exprToIngredientCoeffs ing e) = false
  | .num _ => rfl
  | .reference r => by
    unfold exprToIngredientCoeffs
    split
    · split <;> rfl
    · rfl
  | .paren inner => isUI_exprToIngredientCoeffs ing inner
  | .binaryOp l op r => by
    cases op with
    | add =>
      simp only [exprToIngredientCoeffs]
      apply isUI_bind (isUI_exprToIngredientCoeffs ing l)
      intro a
      apply isUI_bind (isUI_exprToIngredientCoeffs ing r)
      intro b
      rfl
    | sub =>
      simp only [exprToIngredientCoeffs]
      apply isUI_bind (isUI_exprToIngredientCoeffs ing l)
      intro a
      apply isUI_bind (isUI_exprToIngredientCoeffs ing r)
      intro b
      rfl
    | mul =>
      simp only [exprToIngredientCoeffs]
      split
      · apply isUI_bind (isUI_exprToIngredientCoeffs ing r)
        intro a
        rfl
      · split
        · apply isUI_bind (isUI_exprToIngredientCoeffs ing l)
          intro a
          rfl
        · rfl
    | div =>
      simp only [exprToIngredientCoeffs]
      split
      · split
        · rfl
        · apply isUI_bind (isUI_exprToIngredientCoeffs ing l)
          intro a
          rfl
      · rfl

/-- `add_ingredient_constraint` never produces `UnknownIngredient`. -/
theorem isUI_addIngredientConstraint (st : SymbolTable) (lp : LpProblem)
    (c : IngredientConstraint) (ing : List String) (batch : ℚ) :
    isUnknownIngredientErr (addIngredientConstraint st lp c ing batch) = false := by
  unfold addIngredientConstraint
  apply isUI_bind (isUI_exprToIngredientCoeffs ing c.expr)
  intro coeffs
  rfl

/-- `resolve_nutrient_constraints` never produces `UnknownIngredient`
(its own errors are `UnknownFormula` and — on fuel exhaustion, modelling
the unbounded recursion — `CircularReference`). -/
theorem isUI_resolveNutrientConstraints :
    ∀ (fuel : ℕ) (st : SymbolTable) (cs : List NutrientConstraint),
      isUnknownIngredientErr (resolveNutrientConstraints fuel st cs) = false := by
  intro fuel
  induction fuel with
  | zero => intro st cs; rfl
  | succ f ih =>
    intro st cs
    unfold resolveNutrientConstraints
    apply isUI_bind
    · apply isUI_foldlM
      intro acc nc
      split
      · apply isUI_bind
        · dsimp only
          split
          · rfl
          · apply isUI_bind (ih st _)
            intro sub
            rfl
        · intro base
          rfl
      · rfl
    · intro r
      rfl

/-- `resolve_ingredient_constraints` never produces `UnknownIngredient`. -/
theorem isUI_resolveIngredientConstraints :
    ∀ (fuel : ℕ) (st : SymbolTable) (cs : List IngredientConstraint),
      isUnknownIngredientErr (resolveIngredientConstraints fuel st cs) = false := by
  intro fuel
  induction fuel with
  | zero => intro st cs; rfl
  | succ f ih =>
    intro st cs
    unfold resolveIngredientConstraints
    apply isUI_bind
    · apply isUI_foldlM
      intro acc ic
      split
      · apply isUI_bind
        · dsimp only
          split
          · rfl
          · apply isUI_bind (ih st _)
            intro sub
            rfl
        · intro base
          rfl
      · rfl
    · intro r
      rfl

/-- `collect_ingredients_from_expr` never fails at all. -/
theorem collect_ok (st : SymbolTable) :
    ∀ (e : Expr) (acc : List String), ∃ out,
      collectIngredientsFromExpr st e acc = .ok out ∧
      ∀ x ∈ out, x ∈ acc ∨ containsAL st.ingredients x = true
  | .num _, acc => ⟨acc, rfl, fun x hx => Or.inl hx⟩
  | .reference r, acc => by
    unfold collectIngredientsFromExpr
    split
    · split
      · refine ⟨_, rfl, fun x hx => ?_⟩
        rcases List.mem_append.mp hx with h | h
        · exact Or.inl h
        · rename_i name _ hcont
          rw [List.mem_singleton.mp h]
          exact Or.inr hcont
      · exact ⟨acc, rfl, fun x hx => Or.inl hx⟩
    · exact ⟨acc, rfl, fun x hx => Or.inl hx⟩
  | .binaryOp l _ r, acc => by
    obtain ⟨out1, h1, s1⟩ := collect_ok st l acc
    obtain ⟨out2, h2, s2⟩ := collect_ok st r out1
    refine ⟨out2, ?_, ?_⟩
    · simp only [collectIngredientsFromExpr, h1, Except.bind, bind]
      exact h2
    · intro x hx
      rcases s2 x hx with h | h
      · rcases s1 x h with h' | h'
        · exact Or.inl h'
        · exact Or.inr h'
      · exact Or.inr h
  | .paren inner, acc => collect_ok st inner acc

/-- The ingredient-collection fold over the resolved constraints
succeeds and only accumulates known ingredients. -/
theorem collectFold_ok (st : SymbolTable) :
    ∀ (ics : List IngredientConstraint) (acc : List String), ∃ out,
      ics.foldlM (fun a ic => collectIngredientsFromExpr st ic.expr a) acc = .ok out ∧
      ∀ x ∈ out, x ∈ acc ∨ containsAL st.ingredients x = true
  | [], acc => ⟨acc, rfl, fun x hx => Or.inl hx⟩
  | ic :: ics, acc => by
    obtain ⟨out1, h1, s1⟩ := collect_ok st ic.expr acc
    obtain ⟨out2, h2, s2⟩ := collectFold_ok st ics out1
    refine ⟨out2, ?_, ?_⟩
    · rw [List.foldlM_cons, h1]
      simpa [Bind.bind, Except.bind] using h2
    · intro x hx
      rcases s2 x hx with h | h
      · rcases s1 x h with h' | h'
        · exact Or.inl h'
        · exact Or.inr h'
      · exact Or.inr h

/-- Members of the deduplicated list come from the input list. -/
theorem mem_dedupFirst :
    ∀ (seen l : List String) (x : String), x ∈ dedupFirst seen l → x ∈ l := by
  intro seen l
  induction l generalizing seen with
  | nil => intro x hx; simp [dedupFirst] at hx
  | cons a l ih =>
    intro x hx
    unfold dedupFirst at hx
    split at hx
    · exact List.mem_cons_of_mem a (ih _ x hx)
    · rcases List.mem_cons.mp hx with h | h
      · exact h ▸ List.mem_cons_self a l
      · exact List.mem_cons_of_mem a (ih _ x h)

/-- `add_constraint` leaves the variable list unchanged. -/
theorem vars_addConstraint (lp : LpProblem) (nm : String) (cs : List ℚ)
    (op : ConstraintOp) (rhs : ℚ) : (lp.addConstraint nm cs op rhs).vars = lp.vars :=
  rfl

/-- `add_ratio_constraint` leaves the variable list unchanged. -/
theorem vars_addRatioConstraint (st : SymbolTable) (lp : LpProblem)
    (num den : Expr) (bounds : Bounds) (al : Option String) (ing : List String)
    (batch : ℚ) (lp' : LpProblem)
    (h : addRatioConstraint st lp num den bounds al ing batch = .ok lp') :
    lp'.vars = lp.vars := by
  unfold addRatioConstraint at h
  cases h1 : exprToNutrientName num with
  | error e => rw [h1] at h; simp [Bind.bind, Except.bind] at h
  | ok a =>
    rw [h1] at h
    cases h2 : exprToNutrientName den with
    | error e => rw [h2] at h; simp [Bind.bind, Except.bind] at h
    | ok b =>
      rw [h2] at h
      simp only [Bind.bind, Except.bind, Except.ok.injEq] at h
      subst h
      split <;> split <;> rfl

/-- `add_nutrient_constraint` leaves the variable list unchanged. -/
theorem vars_addNutrientConstraint (st : SymbolTable) (lp : LpProblem)
    (c : NutrientConstraint) (ing : List String) (batch : ℚ) (lp' : LpProblem)
    (h : addNutrientConstraint st lp c ing batch = .ok lp') : lp'.vars = lp.vars := by
  unfold addNutrientConstraint at h
  split at h
  · exact vars_addRatioConstraint _ _ _ _ _ _ _ _ _ h
  · cases h1 : exprToNutrientName c.expr with
    | error e => rw [h1] at h; simp [Bind.bind, Except.bind] at h
    | ok nm =>
      rw [h1] at h
      simp only [Bind.bind, Except.bind] at h
      split at h
      · split at h
        · simp [Except.bind] at h
        · split at h
          · split at h
            · simp at h
            · simp only [Except.ok.injEq] at h
              subst h
              rfl
          · simp only [Except.ok.injEq] at h
            subst h
            rfl
      · split at h
        · split at h
          · simp at h
          · simp only [Except.ok.injEq] at h
            subst h
            rfl
        · simp only [Except.ok.injEq] at h
          subst h
          rfl

/-- `add_ingredient_constraint` leaves the variable list unchanged. -/
theorem vars_addIngredientConstraint (st : SymbolTable) (lp : LpProblem)
    (c : IngredientConstraint) (ing : List String) (batch : ℚ) (lp' : LpProblem)
    (h : addIngredientConstraint st lp c ing batch = .ok lp') : lp'.vars = lp.vars := by
  unfold addIngredientConstraint at h
  cases h1 : exprToIngredientCoeffs ing c.expr with
  | error e => rw [h1] at h; simp [Bind.bind, Except.bind] at h
  | ok coeffs =>
    rw [h1] at h
    simp only [Bind.bind, Except.bind, Except.ok.injEq] at h
    subst h
    split <;> split <;> rfl

/-- A fold of variable-preserving steps preserves the variable list. -/
theorem vars_foldlM {α : Type} (f : LpProblem → α → Except CompileError LpProblem)
    (pres : ∀ lp a lp', f lp a = .ok lp' → lp'.vars = lp.vars) :
    ∀ (l : List α) (lp lp' : LpProblem), l.foldlM f lp = .ok lp' → lp'.vars = lp.vars := by
  intro l
  induction l with
  | nil =>
    intro lp lp' h
    simp only [List.foldlM_nil] at h
    cases h
    rfl
  | cons a l ih =>
    intro lp lp' h
    rw [List.foldlM_cons] at h
    cases h1 : f lp a with
    | error e => rw [h1] at h; simp [Bind.bind, Except.bind] at h
    | ok lp1 =>
      rw [h1] at h
      simp only [Bind.bind, Except.bind] at h
      exact (ih lp1 lp' h).trans (pres lp a lp1 h1)

/-- The non-negativity-row fold preserves the variable list. -/
theorem vars_foldl_nonneg (names : List String) :
    ∀ (l : List (ℕ × String)) (lp : LpProblem),
      (l.foldl (fun lp iv =>
        lp.addConstraint (iv.2 ++ "_nonneg")
          (setAt (List.replicate names.length (0 : ℚ)) iv.1 1) .ge 0) lp).vars
      = lp.vars := by
  intro l
  induction l with
  | nil => intro lp; rfl
  | cons a l ih => intro lp; exact ih _

/-- `compile_formula` never produces `UnknownIngredient`, for any symbol
table, formula name and recursion budget. -/
theorem isUI_compileFormula (fuel : ℕ) (st : SymbolTable) (name : String) :
    isUnknownIngredientErr (compileFormula fuel st name) = false := by
  unfold compileFormula
  dsimp only
  split
  · refine isUI_bind ?_ ?_
    · rfl
    intro formula
    split
    · rfl
    · apply isUI_bind (isUI_resolveNumberProperty fuel st formula.properties _)
      intro bs1
      apply isUI_bind (isUI_resolveNumberProperty fuel st formula.properties _)
      intro bs2
      dsimp only
      split
      · refine isUI_bind ?_ ?_
        · rfl
        intro batchSize
        apply isUI_bind (isUI_resolveNutrientConstraints fuel st formula.nutrients)
        intro rn
        apply isUI_bind (isUI_resolveIngredientConstraints fuel st formula.ingredients)
        intro ri
        apply isUI_bind
        · obtain ⟨out, heq, _⟩ := collectFold_ok st ri []
          rw [heq]
          rfl
        · intro collected
          dsimp only
          apply isUI_bind
            (isUI_foldlM _ (fun lp nc => isUI_addNutrientConstraint st lp nc _ _) _ _)
          intro lp2
          apply isUI_bind
            (isUI_foldlM _ (fun lp ic => isUI_addIngredientConstraint st lp ic _ _) _ _)
          intro lp3
          rfl
      · rfl
  · rfl

/-- Every variable of a successfully compiled formula's LP names an
ingredient present in the symbol table: unknown names are silently
dropped rather than becoming columns. -/
theorem vars_compileFormula (fuel : ℕ) (st : SymbolTable) (name : String)
    (cf : CompiledFormula) (h : compileFormula fuel st name = .ok cf) :
    ∀ x ∈ cf.lpProblem.vars, containsAL st.ingredients x = true := by
  unfold compileFormula at h
  cases hf : lookupAL st.formulas name with
  | none => rw [hf] at h; simp [Bind.bind, Except.bind] at h
  | some formula =>
    rw [hf] at h
    simp only [Bind.bind, Except.bind] at h
    split at h
    · simp at h
    · cases hb1 : resolveNumberProperty fuel st formula.properties "batch_size" with
      | error e => rw [hb1] at h; simp [Except.bind] at h
      | ok bs1 =>
        rw [hb1] at h
        simp only [Except.bind] at h
        cases hb2 : resolveNumberProperty fuel st formula.properties "batch" with
        | error e => rw [hb2] at h; simp [Except.bind] at h
        | ok bs2 =>
          rw [hb2] at h
          simp only [Except.bind] at h
          cases hbs : bs1.or bs2 with
          | none => rw [hbs] at h; simp [Except.bind] at h
          | some batchSize =>
            rw [hbs] at h
            simp only [Except.bind] at h
            cases hn : resolveNutrientConstraints fuel st formula.nutrients with
            | error e => rw [hn] at h; simp [Except.bind] at h
            | ok rn =>
              rw [hn] at h
              simp only [Except.bind] at h
              cases hi : resolveIngredientConstraints fuel st formula.ingredients with
              | error e => rw [hi] at h; simp [Except.bind] at h
              | ok ri =>
                rw [hi] at h
                simp only [Except.bind] at h
                obtain ⟨collected, hc, hprop⟩ := collectFold_ok st ri []
                rw [hc] at h
                simp only [Except.bind] at h
                cases h2 : rn.foldlM
                    (fun lp nc => addNutrientConstraint st lp nc
                      (dedupFirst [] collected) batchSize)
                    ((LpProblem.new (dedupFirst [] collected)).setObjective
                      ((dedupFirst [] collected).map
                        (fun n => ((lookupAL st.ingredients n).map (·.cost)).getD 0))
                      true) with
                | error e => rw [h2] at h; simp [Except.bind] at h
                | ok lp2 =>
                  rw [h2] at h
                  simp only [Except.bind] at h
                  cases h3 : ri.foldlM
                      (fun lp ic => addIngredientConstraint st lp ic
                        (dedupFirst [] collected) batchSize) lp2 with
                  | error e => rw [h3] at h; simp [Except.bind] at h
                  | ok lp3 =>
                    rw [h3] at h
                    simp only [Except.bind, Except.ok.injEq] at h
                    subst h
                    intro x hx
                    simp only at hx
                    rw [vars_foldl_nonneg (dedupFirst [] collected),
                      vars_addConstraint] at hx
                    rw [vars_foldlM _
                      (fun lp a lp' hh =>
                        vars_addIngredientConstraint st lp a
                          (dedupFirst [] collected) batchSize lp' hh) _ _ _ h3] at hx
                    rw [vars_foldlM _
                      (fun lp a lp' hh =>
                        vars_addNutrientConstraint st lp a
                          (dedupFirst [] collected) batchSize lp' hh) _ _ _ h2] at hx
                    have hx' : x ∈ dedupFirst [] collected := hx
                    rcases hprop x (mem_dedupFirst [] collected x hx') with h0 | h0
                    · cases h0
                    · exact h0

/-- C10: compiling a formula never fails with `UnknownIngredient`; every
variable of the compiled LP is a known ingredient, so an unknown name
referenced in an ingredients block is silently omitted from the variable
list (and hence contributes no column and no cost term). -/
theorem c10_unknown_ingredient_silently_omitted (fuel : ℕ) (st : SymbolTable)
    (name : String) :
    isUnknownIngredientErr (compileFormula fuel st name) = false ∧
    (compiledVars (compileFormula fuel st name)).all
      (containsAL st.ingredients) = true := by
  refine ⟨isUI_compileFormula fuel st name, ?_⟩
  cases h : compileFormula fuel st name with
  | error e => rfl
  | ok cf =>
    simp only [compiledVars]
    exact List.all_eq_true.mpr (fun x hx => vars_compileFormula fuel st name cf h x hx)


/-- On any input accepted by the strict program loop, the resilient loop
produces the same program and appends no error. -/
theorem strict_resilient_agree :
    ∀ (fuel : ℕ) (st : PState) (acc : List Item) (errs : List ParseError)
      (prog : Program),
      parseProgramLoop fuel st acc = .ok prog →
      parseProgramResilientLoop fuel st acc errs = (prog, errs) := by
  intro fuel
  induction fuel with
  | zero => intro st acc errs prog h; simp [parseProgramLoop] at h
  | succ f ih =>
    intro st acc errs prog h
    unfold parseProgramLoop at h
    unfold parseProgramResilientLoop
    dsimp only at h ⊢
    split at h
    · -- eof
      have e := Except.ok.inj h
      subst e
      rfl
    · -- importKw
      rcases hpr : parseImport f (skipNC st) with ⟨res, st2⟩
      rw [hpr] at h
      cases res with
      | error e => simp at h
      | ok it =>
        dsimp only at h ⊢
        exact ih st2 _ errs prog h
    · -- nutrient
      rcases hpr : parseNutrient f (skipNC st) with ⟨res, st2⟩
      rw [hpr] at h
      cases res with
      | error e => simp at h
      | ok it =>
        dsimp only at h ⊢
        exact ih st2 _ errs prog h
    · -- ingredient
      rcases hpr : parseIngredient false f (skipNC st) with ⟨res, st2⟩
      rw [hpr] at h
      cases res with
      | error e => simp at h
      | ok it =>
        dsimp only at h ⊢
        exact ih st2 _ errs prog h
    · -- formula
      rcases hpr : parseFormula false f (skipNC st) with ⟨res, st2⟩
      rw [hpr] at h
      cases res with
      | error e => simp at h
      | ok it =>
        dsimp only at h ⊢
        exact ih st2 _ errs prog h
    · -- template
      split at h
      · -- template ingredient
        rcases hpr : parseIngredient true f (skipNC (advState (skipNC st))) with ⟨res, st2⟩
        rw [hpr] at h
        cases res with
        | error e => simp at h
        | ok it =>
          dsimp only at h ⊢
          exact ih st2 _ errs prog h
      · -- template formula
        rcases hpr : parseFormula true f (skipNC (advState (skipNC st))) with ⟨res, st2⟩
        rw [hpr] at h
        cases res with
        | error e => simp at h
        | ok it =>
          dsimp only at h ⊢
          exact ih st2 _ errs prog h
      · -- template other: strict errors
        rcases hc : current (skipNC (advState (skipNC st))) with _ | t <;>
          rw [hc] at h <;> simp at h
    · -- other leading token: strict errors
      rcases hc : current (skipNC st) with _ | t <;> rw [hc] at h <;> simp at h

/-- C6: whenever the strict parser succeeds on a source string, the
resilient parser returns the identical `Program` together with an empty
error list. -/
theorem c6_resilient_refines_strict (source : String) (prog : Program)
    (h : Parser.parse source = .ok prog) :
    Parser.parseResilient source = (prog, []) := by
  unfold Parser.parse at h
  unfold Parser.parseResilient
  exact strict_resilient_agree _ _ _ _ _ h

/-- C6 witness: a concrete source accepted by the strict parser, on which
the resilient parser returns the same program and no errors. -/
theorem c6_resilient_refines_strict_witness :
    Parser.parse c6src = Except.ok c6prog ∧
    Parser.parseResilient c6src = (c6prog, []) := by
  constructor
  · with_unfolding_all rfl
  · exact c6_resilient_refines_strict c6src c6prog (by with_unfolding_all rfl)

/-! ## Lexer reconstruction lemmas (claim C8, amended form) -/

/-- Prefixes are preserved by consing the same head. -/
theorem prefix_cons {a : Char} {l1 l2 : List Char} (h : l1 <+: l2) :
    a :: l1 <+: a :: l2 := by
  obtain ⟨t, rfl⟩ := h
  exact ⟨t, rfl⟩

theorem stringBody_pre : ∀ l : List Char, stringBody l <+: l
  | [] => ⟨[], rfl⟩
  | c :: rest => by
    unfold stringBody
    split
    · next h => exact ⟨rest, by simp [h]⟩
    · split
      · exact ⟨c :: rest, rfl⟩
      · exact prefix_cons (stringBody_pre rest)

theorem blockBody_pre : ∀ l : List Char, blockBody l <+: l := by
  intro l
  induction l with
  | nil => exact ⟨[], rfl⟩
  | cons c rest ih =>
    unfold blockBody
    split
    · next x heq => exact absurd heq (List.cons_ne_nil c rest)
    · next x rest2 heq =>
      obtain ⟨hc, hr⟩ := List.cons.inj heq
      subst hc
      subst hr
      split
      · exact ⟨_, rfl⟩
      · exact prefix_cons ih
    · next x d rest2 hne heq =>
      obtain ⟨hc, hr⟩ := List.cons.inj heq
      subst hc
      subst hr
      exact prefix_cons ih

theorem takeFr_pre (r1 : List Char) :
    r1.takeWhile isDigitChar ++
      (match r1.dropWhile isDigitChar with
       | '.' :: d :: _ =>
         if isDigitChar d then
           '.' :: ((r1.dropWhile isDigitChar).drop 1).takeWhile isDigitChar
         else []
       | _ => []) <+: r1 := by
  have hfr : (match r1.dropWhile isDigitChar with
       | '.' :: d :: _ =>
         if isDigitChar d then
           '.' :: ((r1.dropWhile isDigitChar).drop 1).takeWhile isDigitChar
         else []
       | _ => []) <+: r1.dropWhile isDigitChar := by
    split
    · rename_i d tail heq
      rw [heq]
      simp only [List.drop_succ_cons, List.drop_zero]
      split
      · exact prefix_cons (List.takeWhile_prefix _)
      · exact ⟨_, List.nil_append _⟩
    · exact ⟨_, List.nil_append _⟩
  obtain ⟨t, ht⟩ := hfr
  refine ⟨t, ?_⟩
  conv_rhs => rw [← List.takeWhile_append_dropWhile isDigitChar r1]
  rw [List.append_assoc, ht]

theorem numberChars_pre (l : List Char) : numberChars l <+: l := by
  unfold numberChars
  dsimp only
  split
  · rw [List.append_assoc]
    exact prefix_cons (takeFr_pre _)
  · rw [List.nil_append]
    exact takeFr_pre _

theorem numberChars_neg_ne (l : List Char) : numberChars ('-' :: l) ≠ [] := by
  unfold numberChars
  dsimp only
  split
  · simp
  · rename_i x hne
    exact absurd rfl (by exact fun h => hne l h)

theorem numberChars_digit_ne (c : Char) (rest : List Char)
    (hd : isDigitChar c = true) : numberChars (c :: rest) ≠ [] := by
  have hne : c ≠ '-' := by
    intro e
    subst e
    simp [isDigitChar] at hd
  unfold numberChars
  dsimp only
  split
  · rename_i r2 heq
    exact absurd (List.cons.inj heq).1 hne
  · simp only [List.nil_append]
    rw [List.takeWhile_cons_of_pos hd]
    simp

theorem keywordKind_ne_eof (s : String) :
    nextTokenG.keywordKind s ≠ TokenKind.eof := by
  unfold nextTokenG.keywordKind
  split_ifs <;> decide

theorem isIdentChar_of_head (c : Char) (h : (c.isAlpha || c = '_') = true) :
    isIdentChar c = true := by
  simp only [Bool.or_eq_true, decide_eq_true_eq] at h
  rcases h with h1 | h1
  · simp [isIdentChar, Char.isAlphanum, h1]
  · subst h1
    decide

theorem ident_take_ne (c : Char) (rest : List Char)
    (h : (c.isAlpha || c = '_') = true) :
    (c :: rest).takeWhile isIdentChar ≠ [] := by
  rw [List.takeWhile_cons_of_pos (isIdentChar_of_head c h)]
  simp

theorem step_conclude (stRem ws consumed st1rem : List Char) (tok : Token)
    (st2 : LexState)
    (hk : tok.kind ≠ TokenKind.eof) (hc : consumed ≠ [])
    (hdata : tok.text.data = consumed)
    (hrem : st2.rem = st1rem.drop consumed.length)
    (hpre : consumed <+: st1rem)
    (hsplit : ws ++ st1rem = stRem)
    (hwall : ws.all isWsChar = true) :
    ws ++ tok.text.data ++ st2.rem = stRem ∧
    ws.all isWsChar = true ∧
    (tok.kind = TokenKind.eof → st2.rem = [] ∧ tok.text.data = []) ∧
    (tok.kind ≠ TokenKind.eof → st2.rem.length < stRem.length) := by
  obtain ⟨t, ht⟩ := hpre
  subst ht
  rw [List.drop_left] at hrem
  refine ⟨?_, hwall, fun he => absurd he hk, fun _ => ?_⟩
  · rw [hdata, hrem, ← hsplit, List.append_assoc]
  · rw [hrem, ← hsplit]
    have h1 : 1 ≤ consumed.length := by
      cases hcl : consumed with
      | nil => exact absurd hcl hc
      | cons a l => simp
    simp only [List.length_append]
    omega

theorem nextTokenG_spec (st : LexState) (ws : List Char) (tok : Token)
    (st2 : LexState) (h : nextTokenG st = (ws, tok, st2)) :
    ws ++ tok.text.data ++ st2.rem = st.rem ∧
    ws.all isWsChar = true ∧
    (tok.kind = TokenKind.eof → st2.rem = [] ∧ tok.text.data = []) ∧
    (tok.kind ≠ TokenKind.eof → st2.rem.length < st.rem.length) := by
  have hws : st.rem.takeWhile isWsChar ++ st.rem.dropWhile isWsChar = st.rem :=
    List.takeWhile_append_dropWhile isWsChar st.rem
  have hall : (st.rem.takeWhile isWsChar).all isWsChar = true :=
    List.all_eq_true.mpr fun c hc => List.mem_takeWhile_imp hc
  unfold nextTokenG at h
  simp only [skipWs] at h
  cases hd : st.rem.dropWhile isWsChar with
  | nil =>
    rw [hd] at h hws
    dsimp only at h
    injection h with hA hB
    injection hB with hB hC
    subst hA
    subst hB
    subst hC
    refine ⟨?_, hall, fun _ => ⟨rfl, rfl⟩, fun hne => absurd rfl hne⟩
    simpa using hws
  | cons c rest =>
    rw [hd] at h hws
    dsimp only at h
    injection h with hA hB
    subst hA
    by_cases h1 : c = '\n'
    · rw [if_pos h1] at hB
      injection hB with hB hC
      subst hB
      subst hC
      exact step_conclude _ _ _ _ _ _ (fun he => TokenKind.noConfusion he) (by simp) rfl rfl ⟨_, rfl⟩ hws hall
    · rw [if_neg h1] at hB
      by_cases h2 : c = '/'
      · rw [if_pos h2] at hB
        subst h2
        split at hB
        · injection hB with hB hC
          subst hB
          subst hC
          exact step_conclude _ _ _ _ _ _ (fun he => TokenKind.noConfusion he) (by simp) rfl rfl
            (prefix_cons (prefix_cons (List.takeWhile_prefix _))) hws hall
        · injection hB with hB hC
          subst hB
          subst hC
          exact step_conclude _ _ _ _ _ _ (fun he => TokenKind.noConfusion he) (by simp) rfl rfl
            (prefix_cons (prefix_cons (blockBody_pre _))) hws hall
        · injection hB with hB hC
          subst hB
          subst hC
          exact step_conclude _ _ _ _ _ _ (fun he => TokenKind.noConfusion he) (by simp) rfl rfl ⟨_, rfl⟩ hws hall
      · rw [if_neg h2] at hB
        by_cases h3 : c = '"'
        · rw [if_pos h3] at hB
          subst h3
          injection hB with hB hC
          subst hB
          subst hC
          exact step_conclude _ _ _ _ _ _ (fun he => TokenKind.noConfusion he) (by simp) rfl rfl
            (prefix_cons (stringBody_pre _)) hws hall
        · rw [if_neg h3] at hB
          by_cases h4 : c = '+'
          · rw [if_pos h4] at hB
            injection hB with hB hC
            subst hB
            subst hC
            exact step_conclude _ _ _ _ _ _ (fun he => TokenKind.noConfusion he) (by simp) rfl rfl ⟨_, rfl⟩ hws hall
          · rw [if_neg h4] at hB
            by_cases h5 : c = '-'
            · rw [if_pos h5] at hB
              subst h5
              split at hB
              · rename_i d tail hdt
                split at hB
                · injection hB with hB hC
                  subst hB
                  subst hC
                  exact step_conclude _ _ _ _ _ _ (fun he => TokenKind.noConfusion he) (numberChars_neg_ne _)
                    rfl rfl (numberChars_pre _) hws hall
                · injection hB with hB hC
                  subst hB
                  subst hC
                  exact step_conclude _ _ _ _ _ _ (fun he => TokenKind.noConfusion he) (by simp) rfl rfl ⟨_, rfl⟩ hws hall
              · injection hB with hB hC
                subst hB
                subst hC
                exact step_conclude _ _ _ _ _ _ (fun he => TokenKind.noConfusion he) (by simp) rfl rfl ⟨_, rfl⟩ hws hall
            · rw [if_neg h5] at hB
              by_cases h6 : c = '*'
              · rw [if_pos h6] at hB
                injection hB with hB hC
                subst hB
                subst hC
                exact step_conclude _ _ _ _ _ _ (fun he => TokenKind.noConfusion he) (by simp) rfl rfl ⟨_, rfl⟩ hws hall
              · rw [if_neg h6] at hB
                by_cases h7 : c = '%'
                · rw [if_pos h7] at hB
                  injection hB with hB hC
                  subst hB
                  subst hC
                  exact step_conclude _ _ _ _ _ _ (fun he => TokenKind.noConfusion he) (by simp) rfl rfl ⟨_, rfl⟩ hws hall
                · rw [if_neg h7] at hB
                  by_cases h8 : c = '.'
                  · rw [if_pos h8] at hB
                    injection hB with hB hC
                    subst hB
                    subst hC
                    exact step_conclude _ _ _ _ _ _ (fun he => TokenKind.noConfusion he) (by simp) rfl rfl ⟨_, rfl⟩ hws hall
                  · rw [if_neg h8] at hB
                    by_cases h9 : c = ':'
                    · rw [if_pos h9] at hB
                      injection hB with hB hC
                      subst hB
                      subst hC
                      exact step_conclude _ _ _ _ _ _ (fun he => TokenKind.noConfusion he) (by simp) rfl rfl ⟨_, rfl⟩ hws hall
                    · rw [if_neg h9] at hB
                      by_cases h10 : c = ','
                      · rw [if_pos h10] at hB
                        injection hB with hB hC
                        subst hB
                        subst hC
                        exact step_conclude _ _ _ _ _ _ (fun he => TokenKind.noConfusion he) (by simp) rfl rfl ⟨_, rfl⟩ hws hall
                      · rw [if_neg h10] at hB
                        by_cases h11 : c = lbraceChar
                        · rw [if_pos h11] at hB
                          injection hB with hB hC
                          subst hB
                          subst hC
                          exact step_conclude _ _ _ _ _ _ (fun he => TokenKind.noConfusion he) (by simp) rfl rfl ⟨_, rfl⟩ hws hall
                        · rw [if_neg h11] at hB
                          by_cases h12 : c = rbraceChar
                          · rw [if_pos h12] at hB
                            injection hB with hB hC
                            subst hB
                            subst hC
                            exact step_conclude _ _ _ _ _ _ (fun he => TokenKind.noConfusion he) (by simp) rfl rfl ⟨_, rfl⟩ hws hall
                          · rw [if_neg h12] at hB
                            by_cases h13 : c = '['
                            · rw [if_pos h13] at hB
                              injection hB with hB hC
                              subst hB
                              subst hC
                              exact step_conclude _ _ _ _ _ _ (fun he => TokenKind.noConfusion he) (by simp) rfl rfl ⟨_, rfl⟩ hws hall
                            · rw [if_neg h13] at hB
                              by_cases h14 : c = ']'
                              · rw [if_pos h14] at hB
                                injection hB with hB hC
                                subst hB
                                subst hC
                                exact step_conclude _ _ _ _ _ _ (fun he => TokenKind.noConfusion he) (by simp) rfl rfl ⟨_, rfl⟩ hws hall
                              · rw [if_neg h14] at hB
                                by_cases h15 : c = '('
                                · rw [if_pos h15] at hB
                                  injection hB with hB hC
                                  subst hB
                                  subst hC
                                  exact step_conclude _ _ _ _ _ _ (fun he => TokenKind.noConfusion he) (by simp) rfl rfl ⟨_, rfl⟩ hws hall
                                · rw [if_neg h15] at hB
                                  by_cases h16 : c = ')'
                                  · rw [if_pos h16] at hB
                                    injection hB with hB hC
                                    subst hB
                                    subst hC
                                    exact step_conclude _ _ _ _ _ _ (fun he => TokenKind.noConfusion he) (by simp) rfl rfl ⟨_, rfl⟩ hws hall
                                  · rw [if_neg h16] at hB
                                    by_cases h17 : isDigitChar c = true
                                    · rw [if_pos h17] at hB
                                      injection hB with hB hC
                                      subst hB
                                      subst hC
                                      exact step_conclude _ _ _ _ _ _ (fun he => TokenKind.noConfusion he)
                                        (numberChars_digit_ne _ _ h17) rfl rfl
                                        (numberChars_pre _) hws hall
                                    · rw [if_neg h17] at hB
                                      by_cases h18 : (c.isAlpha || c = '_') = true
                                      · rw [if_pos h18] at hB
                                        injection hB with hB hC
                                        subst hB
                                        subst hC
                                        exact step_conclude _ _ _ _ _ _
                                          (keywordKind_ne_eof _)
                                          (ident_take_ne _ _ h18) rfl rfl
                                          (List.takeWhile_prefix _) hws hall
                                      · rw [if_neg h18] at hB
                                        injection hB with hB hC
                                        subst hB
                                        subst hC
                                        exact step_conclude _ _ _ _ _ _ (fun he => TokenKind.noConfusion he) (by simp) rfl rfl ⟨_, rfl⟩ hws hall
theorem tokenizeGo_reconstruct :
    ∀ (fuel : ℕ) (st : LexState), st.rem.length < fuel →
      ((tokenizeGo fuel st).map (fun p => p.1 ++ p.2.text.data)).flatten = st.rem ∧
      ((tokenizeGo fuel st).map (fun p => p.1)).all (fun g => g.all isWsChar) = true := by
  intro fuel
  induction fuel with
  | zero => intro st h; omega
  | succ f ih =>
    intro st hlt
    rcases hstep : nextTokenG st with ⟨ws, tok, st2⟩
    obtain ⟨hjoin, hall, heof, hne⟩ := nextTokenG_spec st ws tok st2 hstep
    unfold tokenizeGo
    rw [hstep]
    dsimp only
    by_cases hk : tok.kind = TokenKind.eof
    · rw [if_pos hk]
      obtain ⟨hrem2, htext⟩ := heof hk
      rw [hrem2] at hjoin
      constructor
      · simpa using hjoin
      · simp [hall]
    · rw [if_neg hk]
      have hlt2 : st2.rem.length < f := by
        have := hne hk
        omega
      obtain ⟨ih1, ih2⟩ := ih st2 hlt2
      constructor
      · simp only [List.map_cons, List.flatten_cons, ih1]
        exact hjoin
      · simp only [List.map_cons, List.all_cons, ih2, hall]
        simp

/-- C8 (amended): concatenating, over the token stream in order, each
token's skipped-whitespace gap followed by its text reconstructs the
source exactly, and every skipped gap consists solely of space, tab or
carriage-return characters (so only whitespace bytes can fall outside
all token spans). -/
theorem c8_tokens_and_gaps_reconstruct_source (src : List Char) :
    ((tokenizeG src).map (fun p => p.1 ++ p.2.text.data)).flatten = src ∧
    ((tokenizeG src).map (fun p => p.1)).all (fun g => g.all isWsChar) = true :=
  tokenizeGo_reconstruct (src.length + 1) ⟨src, 0⟩ (by simp)

end Formulang
